import Mathlib

/-!
Verification of the openpilot PTY terminal stack: a shallow embedding of
`system/ui/widgets/terminal.py` (class `TerminalBuffer`) and
`system/ptymaster/pty_service.py` (classes `PTYSession`, `PTYService`),
together with theorems settling the specification claims about them.

Conventions of the embedding:
- Python strings are `List Char`; Python `int` cursor/size fields are `Nat`
  (all the operations modelled keep them non-negative; `max(0, a - b)` on
  non-negative ints coincides with truncated `Nat` subtraction).
- Python list mutation `xs[i] = v` at an in-range index is `List.set`
  (out-of-range indices would raise `IndexError` in Python; the claims are
  settled on states satisfying the grid-shape invariant, where every index
  used by the source is in range).
- A Python call that may raise (`int()` on a non-numeric string,
  `struct.pack` out of range) is modelled by returning the state reached at
  the raise point paired with a `raised : Bool` flag, or by `Option`.
-/

/-- RGB color triple, as in the Python `(r, g, b)` tuples. -/
abbrev Color := Nat × Nat × Nat

/-- The default color `(255, 255, 255)` used throughout `terminal.py`. -/
def defaultColor : Color := (255, 255, 255)

/-- The `self.ansi_colors` dictionary of `TerminalBuffer.__init__`:
`code ↦ rgb` for the supported SGR codes, `none` for absent keys. -/
def ansiColors (code : Nat) : Option Color :=
  if code = 30 then some (0, 0, 0)
  else if code = 31 then some (255, 0, 0)
  else if code = 32 then some (0, 255, 0)
  else if code = 33 then some (255, 255, 0)
  else if code = 34 then some (0, 0, 255)
  else if code = 35 then some (255, 0, 255)
  else if code = 36 then some (0, 255, 255)
  else if code = 37 then some (255, 255, 255)
  else if code = 90 then some (128, 128, 128)
  else if code = 91 then some (255, 128, 128)
  else if code = 92 then some (128, 255, 128)
  else if code = 93 then some (255, 255, 128)
  else if code = 94 then some (128, 128, 255)
  else if code = 95 then some (255, 128, 255)
  else if code = 96 then some (128, 255, 255)
  else if code = 97 then some (255, 255, 255)
  else none

/-- State of a `TerminalBuffer` object (the fields of `__init__`). -/
structure TerminalBuffer where
  rows : Nat
  cols : Nat
  buffer : List (List Char)
  colors : List (List Color)
  cursor_row : Nat
  cursor_col : Nat
  scroll_top : Nat
  scroll_bottom : Nat
  scrollback : List (List Char × List Color)
  scrollback_offset : Nat
  current_color : Color
  deriving Repr, DecidableEq

/-- `TerminalBuffer(rows, cols)`: the fresh buffer built by `__init__`
(the `deque` starts empty; its `maxlen=1000` is enforced in `scroll_up`). -/
def TerminalBuffer.init (rows cols : Nat) : TerminalBuffer where
  rows := rows
  cols := cols
  buffer := List.replicate rows (List.replicate cols ' ')
  colors := List.replicate rows (List.replicate cols defaultColor)
  cursor_row := 0
  cursor_col := 0
  scroll_top := 0
  scroll_bottom := rows - 1
  scrollback := []
  scrollback_offset := 0
  current_color := defaultColor

/-- `self.buffer[i][j] = v` for an `i`-by-`j` in-range update (no-op out of
range, where Python would raise `IndexError`). -/
def setCell (g : List (List α)) (i j : Nat) (v : α) : List (List α) :=
  g.set i ((g.getD i []).set j v)

/-- Functional rendition of the copy double loop in `resize`: cell `(i, j)`
of the fresh `rows × cols` grid receives `old[i][j]` when
`i < min(len(old), rows)` and `j < min(len(old[i]), cols)`, and the blank
value otherwise. -/
def copyGrid (old : List (List α)) (rows cols : Nat) (blank : α) : List (List α) :=
  (List.range rows).map fun i =>
    (List.range cols).map fun j =>
      if i < old.length ∧ j < (old.getD i []).length then (old.getD i []).getD j blank
      else blank

/-- `TerminalBuffer.resize(rows, cols)`. -/
def TerminalBuffer.resize (st : TerminalBuffer) (rows cols : Nat) : TerminalBuffer :=
  if rows = st.rows ∧ cols = st.cols then st
  else
    { st with
      rows := rows
      cols := cols
      buffer := copyGrid st.buffer rows cols ' '
      colors := copyGrid st.colors rows cols defaultColor
      cursor_row := min st.cursor_row (rows - 1)
      cursor_col := min st.cursor_col (cols - 1)
      scroll_bottom := rows - 1 }

/-- The shift loop of `_scroll_up`: rows `scroll_top ≤ i < scroll_bottom`
receive the old row `i + 1` (the loop reads each `buffer[i+1]` before the
iteration that overwrites it), all other rows keep their old value. -/
def shiftUp (g : List (List α)) (top bot : Nat) : List (List α) :=
  (List.range g.length).map fun i =>
    if top ≤ i ∧ i < bot then g.getD (i + 1) [] else g.getD i []

/-- `deque(maxlen=1000).append`: when already at 1000 entries the oldest is
popped from the left before appending. -/
def pushScrollback (sb : List (List Char × List Color)) (e : List Char × List Color) :
    List (List Char × List Color) :=
  if sb.length = 1000 then sb.tail ++ [e] else sb ++ [e]

/-- `TerminalBuffer._scroll_up`. -/
def TerminalBuffer.scroll_up (st : TerminalBuffer) : TerminalBuffer :=
  let entry := (st.buffer.getD st.scroll_top [], st.colors.getD st.scroll_top [])
  { st with
    scrollback := pushScrollback st.scrollback entry
    buffer := (shiftUp st.buffer st.scroll_top st.scroll_bottom).set st.scroll_bottom
      (List.replicate st.cols ' ')
    colors := (shiftUp st.colors st.scroll_top st.scroll_bottom).set st.scroll_bottom
      (List.replicate st.cols defaultColor) }

/-- `TerminalBuffer._newline`. -/
def TerminalBuffer.newline (st : TerminalBuffer) : TerminalBuffer :=
  let st := { st with cursor_col := 0 }
  if st.scroll_bottom ≤ st.cursor_row then st.scroll_up
  else { st with cursor_row := st.cursor_row + 1 }

/-- One character of the `_write_text` loop body. -/
def TerminalBuffer.writeChar (st : TerminalBuffer) (c : Char) : TerminalBuffer :=
  if c = '\n' then st.newline
  else if c = '\r' then { st with cursor_col := 0 }
  else if c = '\x08' then
    if 0 < st.cursor_col then { st with cursor_col := st.cursor_col - 1 } else st
  else if c = '\t' then
    let st := { st with cursor_col := (st.cursor_col / 8 + 1) * 8 }
    if st.cols ≤ st.cursor_col then st.newline else st
  else if 32 ≤ c.toNat then
    let st := if st.cols ≤ st.cursor_col then st.newline else st
    { st with
      buffer := setCell st.buffer st.cursor_row st.cursor_col c
      colors := setCell st.colors st.cursor_row st.cursor_col st.current_color
      cursor_col := st.cursor_col + 1 }
  else st

/-- `TerminalBuffer._write_text`: the per-character loop. -/
def TerminalBuffer.write_text (st : TerminalBuffer) (text : List Char) : TerminalBuffer :=
  text.foldl TerminalBuffer.writeChar st

/-- Character class `[0-9;]` of the escape regex. -/
def isParamChar (c : Char) : Bool := c.isDigit || c = ';'

/-- Character class `[a-zA-Z]` of the escape regex. -/
def isFinalLetter (c : Char) : Bool :=
  ('a' ≤ c && c ≤ 'z') || ('A' ≤ c && c ≤ 'Z')

/-- Python `int(s)` on a parameter substring (whose characters are drawn
from `[0-9;]`): succeeds exactly on a non-empty all-digit string, raising
`ValueError` (modelled as `none`) otherwise, e.g. on `""` and on `"1;2"`. -/
def parsePyInt (s : List Char) : Option Nat :=
  if s ≠ [] ∧ s.all Char.isDigit then
    some (s.foldl (fun a c => a * 10 + (c.toNat - 48)) 0)
  else none

/-- Python `str.split(';')`: `"".split` gives `[""]`, separators at the ends
produce empty fields. -/
def splitSemi : List Char → List (List Char)
  | [] => [[]]
  | c :: r =>
    if c = ';' then [] :: splitSemi r
    else
      match splitSemi r with
      | h :: t => (c :: h) :: t
      | [] => [[c]]

/-- Anchored match of the escape regex `\x1b\[[0-9;]*[a-zA-Z]` at the head
of the input; on success returns the matched token and the remaining
input.  `re.search` scans for the leftmost match, which is the first
position at which this anchored match succeeds (a match contains `ESC`
only at its first character, so matches cannot overlap). -/
def matchCSI (s : List Char) : Option (List Char × List Char) :=
  match s with
  | '\x1b' :: '[' :: rest =>
    let ps := rest.takeWhile isParamChar
    match rest.dropWhile isParamChar with
    | f :: r =>
      if isFinalLetter f then some ('\x1b' :: '[' :: (ps ++ [f]), r) else none
    | [] => none
  | _ => none

/-- The `for param in params.split(';')` loop of `_process_color_sequence`;
`Bool` is the raised-`ValueError` flag (which in fact never fires here,
since the split of a `[0-9;]*` string yields all-digit fields). -/
def processColorParts : TerminalBuffer → List (List Char) → TerminalBuffer × Bool
  | st, [] => (st, false)
  | st, p :: rest =>
    if p = [] then processColorParts st rest
    else
      match parsePyInt p with
      | none => (st, true)
      | some code =>
        let st :=
          if code = 0 then { st with current_color := defaultColor }
          else
            match ansiColors code with
            | some col => { st with current_color := col }
            | none => st
        processColorParts st rest

/-- `TerminalBuffer._process_color_sequence`. -/
def TerminalBuffer.process_color_sequence (st : TerminalBuffer) (params : List Char) :
    TerminalBuffer × Bool :=
  processColorParts st (splitSemi (if params = [] then ['0'] else params))

/-- `TerminalBuffer._process_cursor_position`.  With no parameters the
cursor goes home; otherwise the parameters are split on `;` and acted on
only when at least two fields are present (`int` of an empty field raises,
after `cursor_row` has already been assigned). -/
def TerminalBuffer.process_cursor_position (st : TerminalBuffer) (params : List Char) :
    TerminalBuffer × Bool :=
  if params = [] then ({ st with cursor_row := 0, cursor_col := 0 }, false)
  else
    let parts := splitSemi params
    if 2 ≤ parts.length then
      match parsePyInt (parts.getD 0 []) with
      | none => (st, true)
      | some r =>
        let st := { st with cursor_row := min (st.rows - 1) (r - 1) }
        match parsePyInt (parts.getD 1 []) with
        | none => (st, true)
        | some c => ({ st with cursor_col := min (st.cols - 1) (c - 1) }, false)
    else (st, false)

/-- Pointwise update of a grid with access to the cell coordinates, used to
render the clear loops of `_clear_screen` / `_clear_line`. -/
def mapGrid (g : List (List α)) (f : Nat → Nat → α → α) : List (List α) :=
  g.enum.map fun p => (p.2.enum.map fun q => f p.1 q.1 q.2)

/-- `TerminalBuffer._clear_screen`. -/
def TerminalBuffer.clear_screen (st : TerminalBuffer) (params : List Char) :
    TerminalBuffer × Bool :=
  match (if params = [] then some 0 else parsePyInt params) with
  | none => (st, true)
  | some p =>
    if p = 0 then
      (({ st with
          buffer := mapGrid st.buffer fun i j v =>
            if st.cursor_row ≤ i ∧ i < st.rows ∧ j < st.cols ∧
                (i = st.cursor_row → st.cursor_col ≤ j) then ' ' else v
          colors := mapGrid st.colors fun i j v =>
            if st.cursor_row ≤ i ∧ i < st.rows ∧ j < st.cols ∧
                (i = st.cursor_row → st.cursor_col ≤ j) then defaultColor else v }),
        false)
    else if p = 1 then
      (({ st with
          buffer := mapGrid st.buffer fun i j v =>
            if i ≤ st.cursor_row ∧
                (if i = st.cursor_row then j ≤ st.cursor_col else j ≤ st.cols - 1) then ' '
            else v
          colors := mapGrid st.colors fun i j v =>
            if i ≤ st.cursor_row ∧
                (if i = st.cursor_row then j ≤ st.cursor_col else j ≤ st.cols - 1) then
              defaultColor
            else v }),
        false)
    else if p = 2 then
      (({ st with
          buffer := mapGrid st.buffer fun i j v =>
            if i < st.rows ∧ j < st.cols then ' ' else v
          colors := mapGrid st.colors fun i j v =>
            if i < st.rows ∧ j < st.cols then defaultColor else v }),
        false)
    else (st, false)

/-- `TerminalBuffer._clear_line`. -/
def TerminalBuffer.clear_line (st : TerminalBuffer) (params : List Char) :
    TerminalBuffer × Bool :=
  match (if params = [] then some 0 else parsePyInt params) with
  | none => (st, true)
  | some p =>
    if p = 0 then
      (({ st with
          buffer := mapGrid st.buffer fun i j v =>
            if i = st.cursor_row ∧ st.cursor_col ≤ j ∧ j < st.cols then ' ' else v
          colors := mapGrid st.colors fun i j v =>
            if i = st.cursor_row ∧ st.cursor_col ≤ j ∧ j < st.cols then defaultColor else v }),
        false)
    else if p = 1 then
      (({ st with
          buffer := mapGrid st.buffer fun i j v =>
            if i = st.cursor_row ∧ j ≤ st.cursor_col then ' ' else v
          colors := mapGrid st.colors fun i j v =>
            if i = st.cursor_row ∧ j ≤ st.cursor_col then defaultColor else v }),
        false)
    else if p = 2 then
      (({ st with
          buffer := mapGrid st.buffer fun i j v =>
            if i = st.cursor_row ∧ j < st.cols then ' ' else v
          colors := mapGrid st.colors fun i j v =>
            if i = st.cursor_row ∧ j < st.cols then defaultColor else v }),
        false)
    else (st, false)

/-- `TerminalBuffer._process_escape_sequence` applied to one matched token
`seq = ESC '[' params final`.  The `Bool` is the raised-`ValueError` flag;
a raise inside a branch keeps the mutations made before the raising
statement (only the `H`/`f` branch can mutate before raising). -/
def TerminalBuffer.process_escape_sequence (st : TerminalBuffer) (seq : List Char) :
    TerminalBuffer × Bool :=
  match seq with
  | '\x1b' :: '[' :: rest =>
    let params := rest.dropLast
    let command := rest.getLastD ' '
    if command = 'm' then st.process_color_sequence params
    else if command = 'H' ∨ command = 'f' then st.process_cursor_position params
    else if command = 'A' then
      match (if params = [] then some 1 else parsePyInt params) with
      | none => (st, true)
      | some n => ({ st with cursor_row := st.cursor_row - n }, false)
    else if command = 'B' then
      match (if params = [] then some 1 else parsePyInt params) with
      | none => (st, true)
      | some n => ({ st with cursor_row := min (st.rows - 1) (st.cursor_row + n) }, false)
    else if command = 'C' then
      match (if params = [] then some 1 else parsePyInt params) with
      | none => (st, true)
      | some n => ({ st with cursor_col := min (st.cols - 1) (st.cursor_col + n) }, false)
    else if command = 'D' then
      match (if params = [] then some 1 else parsePyInt params) with
      | none => (st, true)
      | some n => ({ st with cursor_col := st.cursor_col - n }, false)
    else if command = 'J' then st.clear_screen params
    else if command = 'K' then st.clear_line params
    else (st, false)
  | _ => (st, false)

/-- The scanning loop of `TerminalBuffer.write`, with explicit fuel so that
the recursion is structural (each step consumes at least one character, so
`fuel = length of the input` always suffices; see `writeFuel_eq_of_le`).
At the leftmost regex match the matched token is processed and scanning
resumes after it; otherwise the head character goes through `_write_text`.
A raise from escape processing aborts the loop, keeping the state reached
(the caller of `write` sees the exception). -/
def writeFuel : Nat → TerminalBuffer → List Char → TerminalBuffer × Bool
  | 0, st, _ => (st, false)
  | _ + 1, st, [] => (st, false)
  | fuel + 1, st, c :: cs =>
    match matchCSI (c :: cs) with
    | some (tok, rest) =>
      let r := st.process_escape_sequence tok
      if r.2 then (r.1, true) else writeFuel fuel r.1 rest
    | none => writeFuel fuel (st.writeChar c) cs

/-- `TerminalBuffer.write(data)`: final state, paired with the raised flag. -/
def TerminalBuffer.write (st : TerminalBuffer) (data : List Char) : TerminalBuffer × Bool :=
  writeFuel data.length st data

/-- `TerminalBuffer.get_display_lines`. A display line is the pair of the
row's characters and the row's colors (the source joins the characters
into a string; the character list carries the same information). -/
def TerminalBuffer.get_display_lines (st : TerminalBuffer) :
    List (List Char × List Color) :=
  if 0 < st.scrollback_offset then
    let sbl := st.scrollback
    let start := sbl.length - st.scrollback_offset
    let ringLines := sbl.drop start
    let remaining := st.rows - ringLines.length
    ringLines ++ ((List.range remaining).filterMap fun i =>
      if i < st.buffer.length then some (st.buffer.getD i [], st.colors.getD i []) else none)
  else
    (List.range st.rows).map fun i => (st.buffer.getD i [], st.colors.getD i [])

/-- A grid is exactly `rows` lists of exactly `cols` cells each. -/
def gridShape (g : List (List α)) (rows cols : Nat) : Prop :=
  g.length = rows ∧ ∀ r ∈ g, r.length = cols

instance (g : List (List α)) (rows cols : Nat) : Decidable (gridShape g rows cols) := by
  unfold gridShape; infer_instance

/-- Well-formedness of a `TerminalBuffer` state: positive dimensions, both
grids of the stated shape, cursor in bounds (`cursor_col = cols`, one past
the end, is allowed), and the scroll region spanning the whole screen (the
source never moves `scroll_top` and always re-pins `scroll_bottom`). -/
def TerminalBuffer.WF (st : TerminalBuffer) : Prop :=
  1 ≤ st.rows ∧ 1 ≤ st.cols ∧
  gridShape st.buffer st.rows st.cols ∧
  gridShape st.colors st.rows st.cols ∧
  st.cursor_row < st.rows ∧ st.cursor_col ≤ st.cols ∧
  st.scroll_top = 0 ∧ st.scroll_bottom = st.rows - 1

instance (st : TerminalBuffer) : Decidable st.WF := by
  unfold TerminalBuffer.WF; infer_instance

/-- `WF` minus the cursor-column bound: what survives while `cursor_col`
temporarily exceeds `cols` (between the tab assignment and the newline). -/
def TerminalBuffer.WFnc (st : TerminalBuffer) : Prop :=
  1 ≤ st.rows ∧ 1 ≤ st.cols ∧
  gridShape st.buffer st.rows st.cols ∧
  gridShape st.colors st.rows st.cols ∧
  st.cursor_row < st.rows ∧
  st.scroll_top = 0 ∧ st.scroll_bottom = st.rows - 1

/-- The public operations of `TerminalBuffer` used by its callers. -/
inductive TermOp where
  | write (data : List Char)
  | resize (rows cols : Nat)
  deriving Repr, DecidableEq

/-- Apply one operation (a raising `write` leaves the state it reached). -/
def applyOp (st : TerminalBuffer) : TermOp → TerminalBuffer
  | TermOp.write d => (st.write d).1
  | TermOp.resize r c => st.resize r c

/-- `resize` arguments are positive, as at the only call site
(`TerminalWidget._update_terminal_size` passes `max(1, ...)`). -/
def opValid : TermOp → Prop
  | TermOp.write _ => True
  | TermOp.resize r c => 1 ≤ r ∧ 1 ≤ c

instance : DecidablePred opValid := by
  intro op
  cases op <;> (unfold opValid; infer_instance)

def applyOps (st : TerminalBuffer) (ops : List TermOp) : TerminalBuffer :=
  ops.foldl applyOp st

/-- The escape tokens a given input stream makes `write` process, collected
by the same leftmost-match scan (same fuel discipline as `writeFuel`). -/
def escTokensFuel : Nat → List Char → List (List Char)
  | 0, _ => []
  | _ + 1, [] => []
  | fuel + 1, c :: cs =>
    match matchCSI (c :: cs) with
    | some (tok, rest) => tok :: escTokensFuel fuel rest
    | none => escTokensFuel fuel cs

def escTokens (s : List Char) : List (List Char) := escTokensFuel s.length s

/-- A token whose processing performs no failing `int()` call: finals
`A B C D J K` need an empty or purely numeric parameter string; `H`/`f`
needs no parameters, a single parameter (ignored), or first two fields
non-empty numeric.  Everything else (including `m` and unrecognized
finals) never raises. -/
def tokenSafe (tok : List Char) : Bool :=
  match tok with
  | '\x1b' :: '[' :: rest =>
    let params := rest.dropLast
    let cmd := rest.getLastD ' '
    if cmd = 'A' ∨ cmd = 'B' ∨ cmd = 'C' ∨ cmd = 'D' ∨ cmd = 'J' ∨ cmd = 'K' then
      params.isEmpty || params.all Char.isDigit
    else if cmd = 'H' ∨ cmd = 'f' then
      params.isEmpty || decide ((splitSemi params).length < 2) ||
        (!((splitSemi params).getD 0 []).isEmpty &&
          ((splitSemi params).getD 0 []).all Char.isDigit &&
          !((splitSemi params).getD 1 []).isEmpty &&
          ((splitSemi params).getD 1 []).all Char.isDigit)
    else true
  | _ => true

/-- A concrete display state: 2×1 grid, one saved ring line, offset 1. -/
def dispStateA : TerminalBuffer where
  rows := 2
  cols := 1
  buffer := [['x'], ['y']]
  colors := [[defaultColor], [defaultColor]]
  cursor_row := 0
  cursor_col := 0
  scroll_top := 0
  scroll_bottom := 1
  scrollback := [(['a'], [defaultColor])]
  scrollback_offset := 1
  current_color := defaultColor

/-- A concrete display state obeying the data-model invariants
(`scrollback_offset ≤ len(scrollback)`, grids `rows × cols`) whose offset
3 exceeds `rows = 2`. -/
def dispStateB : TerminalBuffer where
  rows := 2
  cols := 1
  buffer := [[' '], [' ']]
  colors := [[defaultColor], [defaultColor]]
  cursor_row := 0
  cursor_col := 0
  scroll_top := 0
  scroll_bottom := 1
  scrollback := [(['a'], [defaultColor]), (['b'], [defaultColor]), (['c'], [defaultColor])]
  scrollback_offset := 3
  current_color := defaultColor

/-- `struct.pack('H', v)`: an unsigned 16-bit field; values outside
`[0, 65535]` raise `struct.error` (modelled as `none`).  In
`resize_terminal` the pack happens before the `try` block, so the error
propagates to the caller. -/
def packUShort (v : Int) : Option Nat :=
  if 0 ≤ v ∧ v < 65536 then some v.toNat else none

/-- `PTYSession.resize_terminal(rows, cols)`: the `(rows, cols)` actually
packed into the `TIOCSWINSZ` winsize, in that order, with no clamping. -/
def PTYSession.resize_terminal (rows cols : Int) : Option (Nat × Nat) :=
  match packUShort rows, packUShort cols with
  | some r, some c => some (r, c)
  | _, _ => none

/-- One message received by `PTYService._handle_client`, after the
`json.loads` attempt: a parsed control message, an unrecognized JSON
object, or an unparsable chunk. -/
inductive ClientMsg where
  | connectMsg (session_id : Option String)
  | resizeMsg (rows cols : Int)
  | inputMsg (data : String)
  | otherJson
  | rawData (data : String)
  deriving Repr, DecidableEq

/-- Observable effects of the handler loop. -/
inductive SrvAction where
  | attachClient (sid : String)
  | sendConnected (sid : String)
  | resizePty (sid : String) (rows cols : Int)
  | writePty (sid : String) (data : String)
  | closeConn
  deriving Repr, DecidableEq

/-- One iteration of the `while True` loop of `_handle_client`: given the
currently attached session (if any), the new session and the effects.
`connect` (re)attaches (session id defaulting to `"default"`); `resize`
and `input` act only when a session is attached (`and session`);
unrecognized JSON falls through every branch; an unparsable chunk is
forwarded raw when a session is attached and dropped otherwise.  No
branch closes the connection. -/
def handleStep : Option String → ClientMsg → Option String × List SrvAction
  | _, ClientMsg.connectMsg sid =>
    ((some (sid.getD "default")),
      [SrvAction.attachClient (sid.getD "default"),
       SrvAction.sendConnected (sid.getD "default")])
  | session, ClientMsg.resizeMsg r c =>
    match session with
    | some sid => (session, [SrvAction.resizePty sid r c])
    | none => (session, [])
  | session, ClientMsg.inputMsg d =>
    match session with
    | some sid => (session, [SrvAction.writePty sid d])
    | none => (session, [])
  | session, ClientMsg.otherJson => (session, [])
  | session, ClientMsg.rawData d =>
    match session with
    | some sid => (session, [SrvAction.writePty sid d])
    | none => (session, [])

/-- The handler loop over a sequence of received messages (the loop ends,
and the `finally` detach runs, only when `recv` returns empty or the
connection errors — never as a reaction to a message). -/
def handleMessages : Option String → List ClientMsg → List SrvAction
  | _, [] => []
  | session, m :: rest =>
    (handleStep session m).2 ++ handleMessages (handleStep session m).1 rest

/-- Events of one broadcast iteration of `PTYSession._read_from_pty`. -/
inductive BEv where
  | acquire
  | release
  | send (i : Nat)
  | removeClose (i : Nat)
  deriving Repr, DecidableEq

/-- The event trace of one broadcast in `_read_from_pty`: `with self.lock:`
then, for each client of a copy of the list, a `send` attempt, followed —
for a broken client — by `remove` + `close` in the same critical section;
the lock is released only after the loop. A client is `(id, healthy)`. -/
def broadcastTrace (clients : List (Nat × Bool)) : List BEv :=
  [BEv.acquire] ++
    (clients.map fun p =>
      if p.2 then [BEv.send p.1] else [BEv.send p.1, BEv.removeClose p.1]).flatten ++
  [BEv.release]

/-- Is some `send` event performed while the lock is held? -/
def sendsWhileHeld : Bool → List BEv → Bool
  | _, [] => false
  | _, BEv.acquire :: r => sendsWhileHeld true r
  | _, BEv.release :: r => sendsWhileHeld false r
  | held, BEv.send _ :: r => held || sendsWhileHeld held r
  | held, BEv.removeClose _ :: r => sendsWhileHeld held r

/-- Is every `send` event performed while the lock is held? -/
def allSendsHeld : Bool → List BEv → Bool
  | _, [] => true
  | _, BEv.acquire :: r => allSendsHeld true r
  | _, BEv.release :: r => allSendsHeld false r
  | held, BEv.send _ :: r => held && allSendsHeld held r
  | held, BEv.removeClose _ :: r => allSendsHeld held r


/-! ### Scanner infrastructure: fuel irrelevance for `write` -/

theorem length_dropWhile_le (p : α → Bool) (l : List α) :
    (l.dropWhile p).length ≤ l.length := by
  induction l with
  | nil => simp
  | cons c cs ih => by_cases h : p c <;> simp [List.dropWhile, h] <;> omega

/-- A successful regex match consumes at least the three characters
`ESC`, `[` and the final letter. -/
theorem matchCSI_length {s tok rest : List Char}
    (h : matchCSI s = some (tok, rest)) : rest.length + 3 ≤ s.length := by
  unfold matchCSI at h
  split at h
  case h_1 rest0 =>
    cases hdw : rest0.dropWhile isParamChar with
    | nil => rw [hdw] at h; simp at h
    | cons f r =>
      rw [hdw] at h
      by_cases hf : isFinalLetter f
      · simp only [hf, if_true] at h
        have hr : rest = r := by
          have := h
          simp only [Option.some.injEq, Prod.mk.injEq] at this
          exact this.2.symm
        have hlen : r.length + 1 ≤ rest0.length := by
          have h1 := length_dropWhile_le isParamChar rest0
          rw [hdw] at h1
          simpa using h1
        subst hr
        simp only [List.length_cons]
        omega
      · simp [hf] at h
  case h_2 => simp at h

theorem writeFuel_nil (fuel : Nat) (st : TerminalBuffer) :
    writeFuel fuel st [] = (st, false) := by
  cases fuel <;> rfl

/-- Any fuel at least the length of the input gives the same result:
each scanner step consumes at least one character. -/
theorem writeFuel_eq_of_le :
    ∀ (f1 : Nat) (st : TerminalBuffer) (s : List Char) (f2 : Nat),
      s.length ≤ f1 → s.length ≤ f2 →
      writeFuel f1 st s = writeFuel f2 st s := by
  intro f1
  induction f1 with
  | zero =>
    intro st s f2 h1 _
    have : s = [] := List.eq_nil_of_length_eq_zero (Nat.le_zero.mp h1)
    subst this
    rw [writeFuel_nil, writeFuel_nil]
  | succ f1 ih =>
    intro st s f2 h1 h2
    cases s with
    | nil => rw [writeFuel_nil, writeFuel_nil]
    | cons c cs =>
      cases f2 with
      | zero => simp at h2
      | succ f2 =>
        simp only [writeFuel]
        cases hm : matchCSI (c :: cs) with
        | none =>
          have hcs : cs.length ≤ f1 := by simp at h1; omega
          have hcs2 : cs.length ≤ f2 := by simp at h2; omega
          exact ih (st.writeChar c) cs f2 hcs hcs2
        | some pr =>
          obtain ⟨tok, rest⟩ := pr
          have hr := matchCSI_length hm
          simp only [List.length_cons] at hr h1 h2
          simp only []
          split
          · rfl
          · exact ih _ rest f2 (by omega) (by omega)

theorem write_nil (st : TerminalBuffer) : st.write [] = (st, false) := rfl

theorem write_cons_match {c : Char} {cs tok rest : List Char}
    (st : TerminalBuffer) (hm : matchCSI (c :: cs) = some (tok, rest)) :
    st.write (c :: cs) =
      (if (st.process_escape_sequence tok).2 then ((st.process_escape_sequence tok).1, true)
       else (st.process_escape_sequence tok).1.write rest) := by
  have hr := matchCSI_length hm
  simp only [List.length_cons] at hr
  unfold TerminalBuffer.write
  simp only [List.length_cons, writeFuel, hm]
  split
  · rfl
  · exact writeFuel_eq_of_le cs.length _ rest rest.length (by omega) (by omega)

theorem write_cons_nomatch {c : Char} {cs : List Char}
    (st : TerminalBuffer) (hm : matchCSI (c :: cs) = none) :
    st.write (c :: cs) = (st.writeChar c).write cs := by
  unfold TerminalBuffer.write
  simp only [List.length_cons, writeFuel, hm]

/-! ### The shape/cursor well-formedness invariant -/

theorem gridShape_set {g : List (List α)} {rows cols : Nat} {row : List α}
    (h : gridShape g rows cols) (hrow : row.length = cols) (i : Nat) :
    gridShape (g.set i row) rows cols := by
  refine ⟨by simp [h.1], ?_⟩
  intro r hr
  rcases List.mem_or_eq_of_mem_set hr with h' | h'
  · exact h.2 r h'
  · rw [h']; exact hrow

theorem gridShape_setCell {g : List (List α)} {rows cols : Nat}
    (h : gridShape g rows cols) (i j : Nat) (v : α) :
    gridShape (setCell g i j v) rows cols := by
  unfold setCell
  by_cases hi : i < g.length
  · refine gridShape_set h ?_ i
    have : g.getD i [] = g[i] := List.getD_eq_getElem g [] hi
    rw [this, List.length_set]
    exact h.2 _ (List.getElem_mem hi)
  · rw [List.set_eq_of_length_le (by omega)]
    exact h

theorem gridShape_copyGrid (old : List (List α)) {rows cols : Nat} (blank : α) :
    gridShape (copyGrid old rows cols blank) rows cols := by
  refine ⟨by simp [copyGrid], ?_⟩
  intro r hr
  simp only [copyGrid, List.mem_map] at hr
  obtain ⟨i, _, rfl⟩ := hr
  simp

theorem gridShape_shiftUp {g : List (List α)} {rows cols : Nat}
    (h : gridShape g rows cols) {top bot : Nat} (hbot : bot < rows) :
    gridShape (shiftUp g top bot) rows cols := by
  refine ⟨by simp [shiftUp, h.1], ?_⟩
  intro r hr
  simp only [shiftUp, List.mem_map, List.mem_range] at hr
  obtain ⟨i, hi, rfl⟩ := hr
  have hlen := h.1
  split
  · next hcond =>
    have hi1 : i + 1 < g.length := by omega
    rw [List.getD_eq_getElem g [] hi1]
    exact h.2 _ (List.getElem_mem hi1)
  · rw [List.getD_eq_getElem g [] hi]
    exact h.2 _ (List.getElem_mem hi)

theorem gridShape_mapGrid {g : List (List α)} {rows cols : Nat}
    (h : gridShape g rows cols) (f : Nat → Nat → α → α) :
    gridShape (mapGrid g f) rows cols := by
  refine ⟨by simp [mapGrid, h.1], ?_⟩
  intro r hr
  simp only [mapGrid, List.mem_map] at hr
  obtain ⟨⟨i, row⟩, hrow, rfl⟩ := hr
  have : row ∈ g := by
    have h2 := List.mem_enum hrow
    have : row = g[i] := h2.2
    rw [this]
    exact List.getElem_mem h2.1
  simp [h.2 row this]

theorem gridShape_replicate (rows cols : Nat) (v : α) :
    gridShape (List.replicate rows (List.replicate cols v)) rows cols := by
  constructor
  · simp
  · intro r hr
    rw [List.eq_of_mem_replicate hr]
    simp

theorem TerminalBuffer.wf_iff (st : TerminalBuffer) :
    st.WF ↔ st.WFnc ∧ st.cursor_col ≤ st.cols := by
  unfold TerminalBuffer.WF TerminalBuffer.WFnc
  tauto

theorem wfnc_scroll_up {st : TerminalBuffer} (h : st.WFnc) : st.scroll_up.WFnc := by
  obtain ⟨h1, h2, h3, h4, h5, h6, h7⟩ := h
  refine ⟨h1, h2, ?_, ?_, h5, h6, h7⟩
  · exact gridShape_set (gridShape_shiftUp h3 (by omega)) (by simp) _
  · exact gridShape_set (gridShape_shiftUp h4 (by omega)) (by simp) _

theorem scroll_up_cursor_col (st : TerminalBuffer) :
    st.scroll_up.cursor_col = st.cursor_col := rfl

theorem scroll_up_cursor_row (st : TerminalBuffer) :
    st.scroll_up.cursor_row = st.cursor_row := rfl

theorem newline_cases (st : TerminalBuffer) :
    st.newline =
      (if st.scroll_bottom ≤ st.cursor_row then
        ({ st with cursor_col := 0 } : TerminalBuffer).scroll_up
      else { st with cursor_col := 0, cursor_row := st.cursor_row + 1 }) := by
  unfold TerminalBuffer.newline
  rfl

theorem newline_cols (st : TerminalBuffer) : st.newline.cols = st.cols := by
  rw [newline_cases]
  split <;> rfl

theorem newline_rows (st : TerminalBuffer) : st.newline.rows = st.rows := by
  rw [newline_cases]
  split <;> rfl

theorem newline_cursor_col (st : TerminalBuffer) : st.newline.cursor_col = 0 := by
  rw [newline_cases]
  split <;> rfl

theorem wf_newline {st : TerminalBuffer} (h : st.WFnc) : st.newline.WF := by
  obtain ⟨h1, h2, h3, h4, h5, h6, h7⟩ := h
  rw [newline_cases]
  by_cases hb : st.scroll_bottom ≤ st.cursor_row
  · rw [if_pos hb, TerminalBuffer.wf_iff]
    refine ⟨wfnc_scroll_up ⟨h1, h2, h3, h4, h5, h6, h7⟩, ?_⟩
    rw [scroll_up_cursor_col]
    exact Nat.zero_le _
  · rw [if_neg hb]
    refine ⟨h1, h2, h3, h4, ?_, Nat.zero_le _, h6, h7⟩
    show st.cursor_row + 1 < st.rows
    omega

theorem wf_writeChar {st : TerminalBuffer} (h : st.WF) (c : Char) : (st.writeChar c).WF := by
  obtain ⟨h1, h2, h3, h4, h5, h6, h7, h8⟩ := h
  have hnc : st.WFnc := ⟨h1, h2, h3, h4, h5, h7, h8⟩
  by_cases hc1 : c = '\n'
  · rw [show st.writeChar c = st.newline by simp [TerminalBuffer.writeChar, hc1]]
    exact wf_newline hnc
  by_cases hc2 : c = '\r'
  · rw [show st.writeChar c = { st with cursor_col := 0 } by
      simp [TerminalBuffer.writeChar, hc1, hc2]]
    exact ⟨h1, h2, h3, h4, h5, Nat.zero_le _, h7, h8⟩
  by_cases hc3 : c = '\x08'
  · rw [show st.writeChar c =
        (if 0 < st.cursor_col then { st with cursor_col := st.cursor_col - 1 } else st) by
      simp [TerminalBuffer.writeChar, hc1, hc2, hc3]]
    split
    · refine ⟨h1, h2, h3, h4, h5, ?_, h7, h8⟩
      show st.cursor_col - 1 ≤ st.cols
      omega
    · exact ⟨h1, h2, h3, h4, h5, h6, h7, h8⟩
  by_cases hc4 : c = '\t'
  · rw [show st.writeChar c =
        (if st.cols ≤ (st.cursor_col / 8 + 1) * 8 then
          ({ st with cursor_col := (st.cursor_col / 8 + 1) * 8 } : TerminalBuffer).newline
        else { st with cursor_col := (st.cursor_col / 8 + 1) * 8 }) by
      simp [TerminalBuffer.writeChar, hc1, hc2, hc3, hc4]]
    split
    · exact wf_newline ⟨h1, h2, h3, h4, h5, h7, h8⟩
    · next hlt =>
      refine ⟨h1, h2, h3, h4, h5, ?_, h7, h8⟩
      show (st.cursor_col / 8 + 1) * 8 ≤ st.cols
      omega
  by_cases hc5 : 32 ≤ c.toNat
  · rw [show st.writeChar c =
        (let s1 := if st.cols ≤ st.cursor_col then st.newline else st
         { s1 with
           buffer := setCell s1.buffer s1.cursor_row s1.cursor_col c
           colors := setCell s1.colors s1.cursor_row s1.cursor_col s1.current_color
           cursor_col := s1.cursor_col + 1 }) by
      simp [TerminalBuffer.writeChar, hc1, hc2, hc3, hc4, hc5]]
    have hs1 : (if st.cols ≤ st.cursor_col then st.newline else st).WF ∧
        (if st.cols ≤ st.cursor_col then st.newline else st).cursor_col <
          (if st.cols ≤ st.cursor_col then st.newline else st).cols := by
      split
      · refine ⟨wf_newline hnc, ?_⟩
        rw [newline_cursor_col, newline_cols]
        omega
      · next h' => exact ⟨⟨h1, h2, h3, h4, h5, h6, h7, h8⟩, by omega⟩
    obtain ⟨⟨g1, g2, g3, g4, g5, g6, g7, g8⟩, hcol⟩ := hs1
    refine ⟨g1, g2, gridShape_setCell g3 _ _ _, gridShape_setCell g4 _ _ _, g5, ?_, g7, g8⟩
    show (if st.cols ≤ st.cursor_col then st.newline else st).cursor_col + 1 ≤
        (if st.cols ≤ st.cursor_col then st.newline else st).cols
    omega
  · rw [show st.writeChar c = st by simp [TerminalBuffer.writeChar, hc1, hc2, hc3, hc4, hc5]]
    exact ⟨h1, h2, h3, h4, h5, h6, h7, h8⟩

theorem wf_processColorParts :
    ∀ (parts : List (List Char)) (st : TerminalBuffer), st.WF →
      ((processColorParts st parts).1).WF := by
  intro parts
  induction parts with
  | nil => intro st h; exact h
  | cons p rest ih =>
    intro st h
    obtain ⟨h1, h2, h3, h4, h5, h6, h7, h8⟩ := h
    unfold processColorParts
    dsimp only
    split
    · exact ih st ⟨h1, h2, h3, h4, h5, h6, h7, h8⟩
    · split
      · exact ⟨h1, h2, h3, h4, h5, h6, h7, h8⟩
      · split
        · exact ih _ ⟨h1, h2, h3, h4, h5, h6, h7, h8⟩
        · split
          · exact ih _ ⟨h1, h2, h3, h4, h5, h6, h7, h8⟩
          · exact ih _ ⟨h1, h2, h3, h4, h5, h6, h7, h8⟩

theorem wf_process_color_sequence {st : TerminalBuffer} (h : st.WF) (params : List Char) :
    ((st.process_color_sequence params).1).WF :=
  wf_processColorParts _ st h

theorem wf_process_cursor_position {st : TerminalBuffer} (h : st.WF) (params : List Char) :
    ((st.process_cursor_position params).1).WF := by
  obtain ⟨h1, h2, h3, h4, h5, h6, h7, h8⟩ := h
  unfold TerminalBuffer.process_cursor_position
  dsimp only
  split
  · refine ⟨h1, h2, h3, h4, ?_, ?_, h7, h8⟩
    · show 0 < st.rows
      omega
    · show 0 ≤ st.cols
      omega
  · split
    · split
      · exact ⟨h1, h2, h3, h4, h5, h6, h7, h8⟩
      · split
        · exact ⟨h1, h2, h3, h4, by dsimp only; omega, h6, h7, h8⟩
        · exact ⟨h1, h2, h3, h4, by dsimp only; omega, by dsimp only; omega, h7, h8⟩
    · exact ⟨h1, h2, h3, h4, h5, h6, h7, h8⟩

theorem wf_clear_update {st : TerminalBuffer} (h : st.WF)
    (f : Nat → Nat → Char → Char) (g : Nat → Nat → Color → Color) :
    ({ st with buffer := mapGrid st.buffer f, colors := mapGrid st.colors g } :
      TerminalBuffer).WF := by
  obtain ⟨h1, h2, h3, h4, h5, h6, h7, h8⟩ := h
  exact ⟨h1, h2, gridShape_mapGrid h3 f, gridShape_mapGrid h4 g, h5, h6, h7, h8⟩

theorem wf_clear_screen {st : TerminalBuffer} (h : st.WF) (params : List Char) :
    ((st.clear_screen params).1).WF := by
  obtain ⟨h1, h2, h3, h4, h5, h6, h7, h8⟩ := h
  unfold TerminalBuffer.clear_screen
  split
  · exact ⟨h1, h2, h3, h4, h5, h6, h7, h8⟩
  · split
    · (dsimp only; exact wf_clear_update ⟨h1, h2, h3, h4, h5, h6, h7, h8⟩ _ _)
    · split
      · (dsimp only; exact wf_clear_update ⟨h1, h2, h3, h4, h5, h6, h7, h8⟩ _ _)
      · split
        · (dsimp only; exact wf_clear_update ⟨h1, h2, h3, h4, h5, h6, h7, h8⟩ _ _)
        · exact ⟨h1, h2, h3, h4, h5, h6, h7, h8⟩

theorem wf_clear_line {st : TerminalBuffer} (h : st.WF) (params : List Char) :
    ((st.clear_line params).1).WF := by
  obtain ⟨h1, h2, h3, h4, h5, h6, h7, h8⟩ := h
  unfold TerminalBuffer.clear_line
  split
  · exact ⟨h1, h2, h3, h4, h5, h6, h7, h8⟩
  · split
    · (dsimp only; exact wf_clear_update ⟨h1, h2, h3, h4, h5, h6, h7, h8⟩ _ _)
    · split
      · (dsimp only; exact wf_clear_update ⟨h1, h2, h3, h4, h5, h6, h7, h8⟩ _ _)
      · split
        · (dsimp only; exact wf_clear_update ⟨h1, h2, h3, h4, h5, h6, h7, h8⟩ _ _)
        · exact ⟨h1, h2, h3, h4, h5, h6, h7, h8⟩

theorem wf_process_escape_sequence {st : TerminalBuffer} (h : st.WF) (seq : List Char) :
    ((st.process_escape_sequence seq).1).WF := by
  unfold TerminalBuffer.process_escape_sequence
  split
  · next rest =>
    obtain ⟨h1, h2, h3, h4, h5, h6, h7, h8⟩ := h
    dsimp only
    split
    · exact wf_process_color_sequence ⟨h1, h2, h3, h4, h5, h6, h7, h8⟩ _
    · split
      · exact wf_process_cursor_position ⟨h1, h2, h3, h4, h5, h6, h7, h8⟩ _
      · split
        · split
          · exact ⟨h1, h2, h3, h4, h5, h6, h7, h8⟩
          · exact ⟨h1, h2, h3, h4, by dsimp only; omega, h6, h7, h8⟩
        · split
          · split
            · exact ⟨h1, h2, h3, h4, h5, h6, h7, h8⟩
            · exact ⟨h1, h2, h3, h4, by dsimp only; omega, h6, h7, h8⟩
          · split
            · split
              · exact ⟨h1, h2, h3, h4, h5, h6, h7, h8⟩
              · exact ⟨h1, h2, h3, h4, h5, by dsimp only; omega, h7, h8⟩
            · split
              · split
                · exact ⟨h1, h2, h3, h4, h5, h6, h7, h8⟩
                · exact ⟨h1, h2, h3, h4, h5, by dsimp only; omega, h7, h8⟩
              · split
                · exact wf_clear_screen ⟨h1, h2, h3, h4, h5, h6, h7, h8⟩ _
                · split
                  · exact wf_clear_line ⟨h1, h2, h3, h4, h5, h6, h7, h8⟩ _
                  · exact ⟨h1, h2, h3, h4, h5, h6, h7, h8⟩
  · exact h

theorem wf_writeFuel :
    ∀ (fuel : Nat) (s : List Char) (st : TerminalBuffer), st.WF →
      ((writeFuel fuel st s).1).WF := by
  intro fuel
  induction fuel with
  | zero => intro s st h; exact h
  | succ fuel ih =>
    intro s st h
    cases s with
    | nil => exact h
    | cons c cs =>
      simp only [writeFuel]
      cases hm : matchCSI (c :: cs) with
      | none => exact ih cs (st.writeChar c) (wf_writeChar h c)
      | some pr =>
        obtain ⟨tok, rest⟩ := pr
        dsimp only
        split
        · exact wf_process_escape_sequence h tok
        · exact ih rest _ (wf_process_escape_sequence h tok)

/-- Well-formedness is preserved by `write` (also on a raising call: the
state kept at the raise point is still well-formed). -/
theorem wf_write {st : TerminalBuffer} (h : st.WF) (data : List Char) :
    ((st.write data).1).WF :=
  wf_writeFuel data.length data st h

theorem wf_resize {st : TerminalBuffer} (h : st.WF) {rows cols : Nat}
    (hr : 1 ≤ rows) (hc : 1 ≤ cols) : (st.resize rows cols).WF := by
  obtain ⟨h1, h2, h3, h4, h5, h6, h7, h8⟩ := h
  unfold TerminalBuffer.resize
  split
  · exact ⟨h1, h2, h3, h4, h5, h6, h7, h8⟩
  · refine ⟨hr, hc, gridShape_copyGrid _ _, gridShape_copyGrid _ _, ?_, ?_, h7, rfl⟩
    · show min st.cursor_row (rows - 1) < rows
      omega
    · show min st.cursor_col (cols - 1) ≤ cols
      omega

theorem wf_init {rows cols : Nat} (hr : 1 ≤ rows) (hc : 1 ≤ cols) :
    (TerminalBuffer.init rows cols).WF :=
  ⟨hr, hc, gridShape_replicate _ _ _, gridShape_replicate _ _ _, by simpa using hr,
    Nat.zero_le _, rfl, rfl⟩

/-! ### Claim C6: grid shape and cursor bounds -/

theorem wf_applyOps :
    ∀ (ops : List TermOp) (st : TerminalBuffer), st.WF → (∀ op ∈ ops, opValid op) →
      (applyOps st ops).WF := by
  intro ops
  induction ops with
  | nil => intro st h _; exact h
  | cons op rest ih =>
    intro st h hops
    have hop : opValid op := hops op (List.mem_cons_self op rest)
    have hrest : ∀ o ∈ rest, opValid o := fun o ho => hops o (List.mem_cons_of_mem op ho)
    show (applyOps (applyOp st op) rest).WF
    refine ih _ ?_ hrest
    cases op with
    | write d => exact wf_write h d
    | resize r c => exact wf_resize h hop.1 hop.2

/-- C6: after any sequence of `write` / `resize` operations (with positive
resize arguments, as at the call sites) starting from the fresh default
24×80 buffer, the character grid is exactly `rows` lists of exactly `cols`
cells, the color grid has the same shape, and the cursor satisfies
`cursor_row < rows` and `cursor_col ≤ cols` (the coordinates are naturals,
so `0 ≤` holds by construction; `cursor_col = cols` means the next
printable write wraps first). -/
theorem C6_grid_cursor_invariant (ops : List TermOp)
    (hops : ∀ op ∈ ops, opValid op) :
    (applyOps (TerminalBuffer.init 24 80) ops).buffer.length =
        (applyOps (TerminalBuffer.init 24 80) ops).rows ∧
      (∀ r ∈ (applyOps (TerminalBuffer.init 24 80) ops).buffer,
        r.length = (applyOps (TerminalBuffer.init 24 80) ops).cols) ∧
      (applyOps (TerminalBuffer.init 24 80) ops).colors.length =
        (applyOps (TerminalBuffer.init 24 80) ops).rows ∧
      (∀ r ∈ (applyOps (TerminalBuffer.init 24 80) ops).colors,
        r.length = (applyOps (TerminalBuffer.init 24 80) ops).cols) ∧
      (applyOps (TerminalBuffer.init 24 80) ops).cursor_row <
        (applyOps (TerminalBuffer.init 24 80) ops).rows ∧
      (applyOps (TerminalBuffer.init 24 80) ops).cursor_col ≤
        (applyOps (TerminalBuffer.init 24 80) ops).cols := by
  have h := wf_applyOps ops (TerminalBuffer.init 24 80)
    (wf_init (by omega) (by omega)) hops
  obtain ⟨h1, h2, ⟨h3a, h3b⟩, ⟨h4a, h4b⟩, h5, h6, h7, h8⟩ := h
  exact ⟨h3a, h3b, h4a, h4b, h5, h6⟩

/-- Witness for C6 at a concrete operation sequence: some text including an
escape sequence and a newline, then a resize, then more text. -/
theorem C6_grid_cursor_invariant_witness :
    (applyOps (TerminalBuffer.init 24 80)
        [TermOp.write ['h', 'i', '\x1b', '[', '3', '1', 'm', '\n', 'o', 'k'],
         TermOp.resize 3 5, TermOp.write ['x', 'y', 'z']]).buffer.length =
        (applyOps (TerminalBuffer.init 24 80)
        [TermOp.write ['h', 'i', '\x1b', '[', '3', '1', 'm', '\n', 'o', 'k'],
         TermOp.resize 3 5, TermOp.write ['x', 'y', 'z']]).rows ∧
      (∀ r ∈ (applyOps (TerminalBuffer.init 24 80)
        [TermOp.write ['h', 'i', '\x1b', '[', '3', '1', 'm', '\n', 'o', 'k'],
         TermOp.resize 3 5, TermOp.write ['x', 'y', 'z']]).buffer,
        r.length = (applyOps (TerminalBuffer.init 24 80)
        [TermOp.write ['h', 'i', '\x1b', '[', '3', '1', 'm', '\n', 'o', 'k'],
         TermOp.resize 3 5, TermOp.write ['x', 'y', 'z']]).cols) ∧
      (applyOps (TerminalBuffer.init 24 80)
        [TermOp.write ['h', 'i', '\x1b', '[', '3', '1', 'm', '\n', 'o', 'k'],
         TermOp.resize 3 5, TermOp.write ['x', 'y', 'z']]).colors.length =
        (applyOps (TerminalBuffer.init 24 80)
        [TermOp.write ['h', 'i', '\x1b', '[', '3', '1', 'm', '\n', 'o', 'k'],
         TermOp.resize 3 5, TermOp.write ['x', 'y', 'z']]).rows ∧
      (∀ r ∈ (applyOps (TerminalBuffer.init 24 80)
        [TermOp.write ['h', 'i', '\x1b', '[', '3', '1', 'm', '\n', 'o', 'k'],
         TermOp.resize 3 5, TermOp.write ['x', 'y', 'z']]).colors,
        r.length = (applyOps (TerminalBuffer.init 24 80)
        [TermOp.write ['h', 'i', '\x1b', '[', '3', '1', 'm', '\n', 'o', 'k'],
         TermOp.resize 3 5, TermOp.write ['x', 'y', 'z']]).cols) ∧
      (applyOps (TerminalBuffer.init 24 80)
        [TermOp.write ['h', 'i', '\x1b', '[', '3', '1', 'm', '\n', 'o', 'k'],
         TermOp.resize 3 5, TermOp.write ['x', 'y', 'z']]).cursor_row <
        (applyOps (TerminalBuffer.init 24 80)
        [TermOp.write ['h', 'i', '\x1b', '[', '3', '1', 'm', '\n', 'o', 'k'],
         TermOp.resize 3 5, TermOp.write ['x', 'y', 'z']]).rows ∧
      (applyOps (TerminalBuffer.init 24 80)
        [TermOp.write ['h', 'i', '\x1b', '[', '3', '1', 'm', '\n', 'o', 'k'],
         TermOp.resize 3 5, TermOp.write ['x', 'y', 'z']]).cursor_col ≤
        (applyOps (TerminalBuffer.init 24 80)
        [TermOp.write ['h', 'i', '\x1b', '[', '3', '1', 'm', '\n', 'o', 'k'],
         TermOp.resize 3 5, TermOp.write ['x', 'y', 'z']]).cols :=
  C6_grid_cursor_invariant
    [TermOp.write ['h', 'i', '\x1b', '[', '3', '1', 'm', '\n', 'o', 'k'],
     TermOp.resize 3 5, TermOp.write ['x', 'y', 'z']] (by decide)

/-! ### Claim C7: tab behavior -/

theorem matchCSI_ne_esc {c : Char} {cs : List Char} (h : c ≠ '\x1b') :
    matchCSI (c :: cs) = none := by
  unfold matchCSI
  split
  · next heq => simp at heq; exact absurd heq.1 h
  · rfl

theorem newline_cursor_row (st : TerminalBuffer) :
    st.newline.cursor_row =
      (if st.scroll_bottom ≤ st.cursor_row then st.cursor_row else st.cursor_row + 1) := by
  rw [newline_cases]
  split <;> rfl

/-- C7 (amended): `\t` moves the column to the next multiple of 8; a
newline is performed exactly when that rounded column REACHES OR EXCEEDS
`cols` (the source tests `>=`, not `>`); a tab at column `cols - 1` always
triggers a newline. -/
theorem C7_tab_amended (st : TerminalBuffer) :
    (((st.write ['\t']).1).cursor_col =
      (if st.cols ≤ (st.cursor_col / 8 + 1) * 8 then 0 else (st.cursor_col / 8 + 1) * 8)) ∧
    (((st.write ['\t']).1).cursor_row =
      (if st.cols ≤ (st.cursor_col / 8 + 1) * 8 then
        (if st.scroll_bottom ≤ st.cursor_row then st.cursor_row else st.cursor_row + 1)
       else st.cursor_row)) ∧
    (st.cursor_col = st.cols - 1 → 1 ≤ st.cols →
      st.cols ≤ (st.cursor_col / 8 + 1) * 8 ∧ ((st.write ['\t']).1).cursor_col = 0) := by
  have hst : ((st.write ['\t']).1) = st.writeChar '\t' := rfl
  have hwc : st.writeChar '\t' =
      (if st.cols ≤ (st.cursor_col / 8 + 1) * 8 then
        ({ st with cursor_col := (st.cursor_col / 8 + 1) * 8 } : TerminalBuffer).newline
      else { st with cursor_col := (st.cursor_col / 8 + 1) * 8 }) := rfl
  have hround : st.cursor_col = st.cols - 1 → 1 ≤ st.cols →
      st.cols ≤ (st.cursor_col / 8 + 1) * 8 := by
    intro h1 h2
    have := Nat.div_add_mod (st.cursor_col) 8
    have hm : st.cursor_col % 8 < 8 := Nat.mod_lt _ (by omega)
    omega
  refine ⟨?_, ?_, ?_⟩
  · rw [hst, hwc]
    split
    · rw [newline_cursor_col]
    · rfl
  · rw [hst, hwc]
    split
    · rw [newline_cursor_row]
    · rfl
  · intro h1 h2
    refine ⟨hround h1 h2, ?_⟩
    rw [hst, hwc, if_pos (hround h1 h2), newline_cursor_col]

/-- Witness for C7 at column 7 of an 8-column buffer (the rounded column 8
equals `cols`, so the newline fires). -/
theorem C7_tab_amended_witness :
    (((TerminalBuffer.init 1 8).write (List.replicate 7 'a')).1.cursor_col =
      (TerminalBuffer.init 1 8).cols - 1) ∧
    ((((TerminalBuffer.init 1 8).write (List.replicate 7 'a')).1.write ['\t']).1.cursor_col = 0) := by
  refine ⟨by decide, ?_⟩
  exact ((C7_tab_amended (((TerminalBuffer.init 1 8).write (List.replicate 7 'a')).1)).2.2
    (by decide) (by decide)).2

set_option maxRecDepth 100000 in
/-- C7 counterexample: on the default 24×80 buffer with the cursor at
column 72, a tab rounds the column to exactly 80 = `cols`.  The claimed
rule (newline only when the rounded column STRICTLY exceeds `cols`)
predicts no newline and `cursor_col = 80`; the code performs the newline:
the cursor moves to row 1, column 0, although `(72/8+1)*8 = 80` does not
strictly exceed 80. -/
theorem C7_counterexample :
    (((TerminalBuffer.init 24 80).write (List.replicate 72 'a' ++ ['\t'])).1.cursor_row = 1 ∧
     ((TerminalBuffer.init 24 80).write (List.replicate 72 'a' ++ ['\t'])).1.cursor_col = 0) ∧
    (72 / 8 + 1) * 8 = 80 ∧ ¬ (80 > 80) := by decide

/-! ### Claim C8: CSI cursor-position sequences -/

/-- Dispatch of `_process_escape_sequence` on a token `ESC [ ps f`:
`params = ps` and `command = f`. -/
theorem process_escape_cmd (st : TerminalBuffer) (ps : List Char) (f : Char) :
    st.process_escape_sequence ('\x1b' :: '[' :: (ps ++ [f])) =
      (if f = 'm' then st.process_color_sequence ps
      else if f = 'H' ∨ f = 'f' then st.process_cursor_position ps
      else if f = 'A' then
        match (if ps = [] then some 1 else parsePyInt ps) with
        | none => (st, true)
        | some n => ({ st with cursor_row := st.cursor_row - n }, false)
      else if f = 'B' then
        match (if ps = [] then some 1 else parsePyInt ps) with
        | none => (st, true)
        | some n => ({ st with cursor_row := min (st.rows - 1) (st.cursor_row + n) }, false)
      else if f = 'C' then
        match (if ps = [] then some 1 else parsePyInt ps) with
        | none => (st, true)
        | some n => ({ st with cursor_col := min (st.cols - 1) (st.cursor_col + n) }, false)
      else if f = 'D' then
        match (if ps = [] then some 1 else parsePyInt ps) with
        | none => (st, true)
        | some n => ({ st with cursor_col := st.cursor_col - n }, false)
      else if f = 'J' then st.clear_screen ps
      else if f = 'K' then st.clear_line ps
      else (st, false)) := by
  show (let params := (ps ++ [f]).dropLast
        let command := (ps ++ [f]).getLastD ' '
        if command = 'm' then st.process_color_sequence params
        else if command = 'H' ∨ command = 'f' then st.process_cursor_position params
        else if command = 'A' then
          match (if params = [] then some 1 else parsePyInt params) with
          | none => (st, true)
          | some n => ({ st with cursor_row := st.cursor_row - n }, false)
        else if command = 'B' then
          match (if params = [] then some 1 else parsePyInt params) with
          | none => (st, true)
          | some n => ({ st with cursor_row := min (st.rows - 1) (st.cursor_row + n) }, false)
        else if command = 'C' then
          match (if params = [] then some 1 else parsePyInt params) with
          | none => (st, true)
          | some n => ({ st with cursor_col := min (st.cols - 1) (st.cursor_col + n) }, false)
        else if command = 'D' then
          match (if params = [] then some 1 else parsePyInt params) with
          | none => (st, true)
          | some n => ({ st with cursor_col := st.cursor_col - n }, false)
        else if command = 'J' then st.clear_screen params
        else if command = 'K' then st.clear_line params
        else (st, false)) = _
  rw [List.dropLast_concat, List.getLastD_concat]

theorem takeWhile_append_of_all {p : Char → Bool} :
    ∀ (ds l : List Char), (∀ c ∈ ds, p c = true) →
      (ds ++ l).takeWhile p = ds ++ l.takeWhile p := by
  intro ds
  induction ds with
  | nil => intro l _; simp
  | cons c r ih =>
    intro l h
    have hc : p c = true := h c (List.mem_cons_self c r)
    simp only [List.cons_append, List.takeWhile_cons, hc, if_true]
    rw [ih l fun x hx => h x (List.mem_cons_of_mem c hx)]

theorem dropWhile_append_of_all {p : Char → Bool} :
    ∀ (ds l : List Char), (∀ c ∈ ds, p c = true) →
      (ds ++ l).dropWhile p = l.dropWhile p := by
  intro ds
  induction ds with
  | nil => intro l _; simp
  | cons c r ih =>
    intro l h
    have hc : p c = true := h c (List.mem_cons_self c r)
    simp only [List.cons_append, List.dropWhile_cons, hc, if_true]
    exact ih l fun x hx => h x (List.mem_cons_of_mem c hx)

/-- The anchored regex match on a complete token followed by nothing:
`ESC [ ps f` matches, consuming everything. -/
theorem matchCSI_token (ps : List Char) (f : Char)
    (hps : ∀ c ∈ ps, isParamChar c = true) (hf : isFinalLetter f = true)
    (hnp : isParamChar f = false) :
    matchCSI ('\x1b' :: '[' :: (ps ++ [f])) = some ('\x1b' :: '[' :: (ps ++ [f]), []) := by
  show (let ps2 := (ps ++ [f]).takeWhile isParamChar
        match (ps ++ [f]).dropWhile isParamChar with
        | g :: r =>
          if isFinalLetter g then some ('\x1b' :: '[' :: (ps2 ++ [g]), r) else none
        | [] => none) = _
  rw [takeWhile_append_of_all ps [f] hps, dropWhile_append_of_all ps [f] hps]
  simp only [List.takeWhile_cons, hnp, Bool.false_eq_true, if_false, List.dropWhile_cons,
    List.append_nil, hf, if_true]

/-- Writing exactly one complete escape token is exactly one call of
`_process_escape_sequence`. -/
theorem write_token (st : TerminalBuffer) (ps : List Char) (f : Char)
    (hps : ∀ c ∈ ps, isParamChar c = true) (hf : isFinalLetter f = true)
    (hnp : isParamChar f = false) :
    st.write ('\x1b' :: '[' :: (ps ++ [f])) =
      st.process_escape_sequence ('\x1b' :: '[' :: (ps ++ [f])) := by
  rw [show ('\x1b' :: '[' :: (ps ++ [f])) = '\x1b' :: ('[' :: (ps ++ [f])) from rfl,
    write_cons_match st (matchCSI_token ps f hps hf hnp)]
  split
  · next hr => exact (Prod.mk.injEq _ _ _ _).mpr ⟨rfl, hr.symm⟩
  · next hr =>
    rw [write_nil]
    exact (Prod.mk.injEq _ _ _ _).mpr ⟨rfl, by simp at hr; exact hr.symm⟩

theorem parsePyInt_some {s : List Char} {n : Nat} (h : parsePyInt s = some n) :
    s ≠ [] ∧ s.all Char.isDigit = true := by
  unfold parsePyInt at h
  split at h
  · next hc => exact hc
  · simp at h

theorem digit_isParam {c : Char} (h : c.isDigit = true) : isParamChar c = true := by
  simp [isParamChar, h]

theorem digit_ne_semi {c : Char} (h : c.isDigit = true) : c ≠ ';' := by
  intro he
  subst he
  exact absurd h (by decide)

theorem splitSemi_no_semi :
    ∀ (ds : List Char), (∀ c ∈ ds, c ≠ ';') → splitSemi ds = [ds] := by
  intro ds
  induction ds with
  | nil => intro _; rfl
  | cons c r ih =>
    intro h
    have hc : c ≠ ';' := h c (List.mem_cons_self c r)
    unfold splitSemi
    rw [if_neg hc, ih fun x hx => h x (List.mem_cons_of_mem c hx)]

theorem splitSemi_append_semi :
    ∀ (d1 d2 : List Char), (∀ c ∈ d1, c ≠ ';') →
      splitSemi (d1 ++ ';' :: d2) = d1 :: splitSemi d2 := by
  intro d1
  induction d1 with
  | nil => intro d2 _; simp [splitSemi]
  | cons c r ih =>
    intro d2 h
    have hc : c ≠ ';' := h c (List.mem_cons_self c r)
    show splitSemi (c :: (r ++ ';' :: d2)) = (c :: r) :: splitSemi d2
    conv_lhs => unfold splitSemi
    rw [if_neg hc, ih d2 fun x hx => h x (List.mem_cons_of_mem c hx)]

/-- C8 (amended): a CSI `H`/`f` sequence with NO parameters homes the
cursor to `(0, 0)`; with TWO (or more) parameters the first two are
applied 1-based and clamped to the grid; but a sequence with exactly ONE
parameter is silently ignored (the source acts only when
`len(parts) >= 2`), leaving the cursor unchanged, rather than moving to
row `min(rows-1, max(0, r-1))`, column 0. -/
theorem C8_cursor_position_amended :
    (∀ st : TerminalBuffer,
      st.write ['\x1b', '[', 'H'] = ({ st with cursor_row := 0, cursor_col := 0 }, false)) ∧
    (∀ (st : TerminalBuffer) (ds : List Char), ds ≠ [] → ds.all Char.isDigit = true →
      st.write ('\x1b' :: '[' :: (ds ++ ['H'])) = (st, false)) ∧
    (∀ (st : TerminalBuffer) (d1 d2 : List Char) (r c : Nat),
      parsePyInt d1 = some r → parsePyInt d2 = some c →
      st.write ('\x1b' :: '[' :: ((d1 ++ ';' :: d2) ++ ['H'])) =
        ({ st with cursor_row := min (st.rows - 1) (r - 1),
                   cursor_col := min (st.cols - 1) (c - 1) }, false)) := by
  refine ⟨fun st => rfl, ?_, ?_⟩
  · intro st ds hne hdig
    have hdm := List.all_eq_true.mp hdig
    have hps : ∀ c ∈ ds, isParamChar c = true := fun c hc => digit_isParam (hdm c hc)
    rw [write_token st ds 'H' hps (by decide) (by decide), process_escape_cmd]
    rw [if_neg (by decide : ¬('H' = 'm')), if_pos (Or.inl rfl : ('H' = 'H' ∨ 'H' = 'f'))]
    unfold TerminalBuffer.process_cursor_position
    rw [if_neg hne]
    dsimp only
    rw [splitSemi_no_semi ds (fun c hc => digit_ne_semi (hdm c hc))]
    rw [if_neg (by simp : ¬(2 ≤ ([ds] : List (List Char)).length))]
  · intro st d1 d2 r c h1 h2
    obtain ⟨hne1, hdig1⟩ := parsePyInt_some h1
    obtain ⟨hne2, hdig2⟩ := parsePyInt_some h2
    have hd1 := List.all_eq_true.mp hdig1
    have hd2 := List.all_eq_true.mp hdig2
    have hps : ∀ x ∈ (d1 ++ ';' :: d2), isParamChar x = true := by
      intro x hx
      rcases List.mem_append.mp hx with hx | hx
      · exact digit_isParam (hd1 x hx)
      · rcases List.mem_cons.mp hx with hx | hx
        · rw [hx]; decide
        · exact digit_isParam (hd2 x hx)
    rw [write_token st (d1 ++ ';' :: d2) 'H' hps (by decide) (by decide), process_escape_cmd]
    rw [if_neg (by decide : ¬('H' = 'm')), if_pos (Or.inl rfl : ('H' = 'H' ∨ 'H' = 'f'))]
    unfold TerminalBuffer.process_cursor_position
    rw [if_neg (by simp : ¬(d1 ++ ';' :: d2 = []))]
    dsimp only
    rw [splitSemi_append_semi d1 d2 (fun x hx => digit_ne_semi (hd1 x hx)),
      splitSemi_no_semi d2 (fun x hx => digit_ne_semi (hd2 x hx))]
    rw [if_pos (by simp : 2 ≤ ([d1, d2] : List (List Char)).length)]
    rw [List.getD_cons_zero, h1]
    dsimp only
    rw [List.getD_cons_succ, List.getD_cons_zero, h2]

/-- Witness for C8: on a fresh 24×80 buffer, `ESC [ 5 H` (a single
parameter) leaves the state unchanged, and `ESC [ 3 ; 7 H` moves the
cursor to row 2, column 6. -/
theorem C8_cursor_position_amended_witness :
    ((TerminalBuffer.init 24 80).write ('\x1b' :: '[' :: (['5'] ++ ['H'])) =
      (TerminalBuffer.init 24 80, false)) ∧
    ((TerminalBuffer.init 24 80).write
        ('\x1b' :: '[' :: ((['3'] ++ ';' :: ['7']) ++ ['H'])) =
      ({ TerminalBuffer.init 24 80 with cursor_row := 2, cursor_col := 6 }, false)) := by
  constructor
  · exact C8_cursor_position_amended.2.1 (TerminalBuffer.init 24 80) ['5']
      (by decide) (by decide)
  · have h := C8_cursor_position_amended.2.2 (TerminalBuffer.init 24 80) ['3'] ['7'] 3 7
      (by decide) (by decide)
    rw [h]
    decide

set_option maxRecDepth 100000 in
/-- C8 counterexample: after `ESC [ 3 ; 7 H` the cursor sits at `(2, 6)`;
the single-parameter sequence `ESC [ 5 H` is then ignored by the code, so
the cursor stays at `(2, 6)`, whereas the claim predicts row
`min(rows-1, max(0, 5-1)) = 4`, column 0. -/
theorem C8_counterexample :
    ((((TerminalBuffer.init 24 80).write ['\x1b', '[', '3', ';', '7', 'H']).1.write
        ['\x1b', '[', '5', 'H']).1.cursor_row = 2 ∧
     (((TerminalBuffer.init 24 80).write ['\x1b', '[', '3', ';', '7', 'H']).1.write
        ['\x1b', '[', '5', 'H']).1.cursor_col = 6) ∧
    ¬((((TerminalBuffer.init 24 80).write ['\x1b', '[', '3', ';', '7', 'H']).1.write
        ['\x1b', '[', '5', 'H']).1.cursor_row = min (24 - 1) (5 - 1) ∧
      (((TerminalBuffer.init 24 80).write ['\x1b', '[', '3', ';', '7', 'H']).1.write
        ['\x1b', '[', '5', 'H']).1.cursor_col = 0) := by decide

/-! ### Claim C9: which inputs make `write` raise -/

/-- Like `process_escape_cmd`, for `tokenSafe`. -/
theorem tokenSafe_cmd (ps : List Char) (f : Char) :
    tokenSafe ('\x1b' :: '[' :: (ps ++ [f])) =
      (if f = 'A' ∨ f = 'B' ∨ f = 'C' ∨ f = 'D' ∨ f = 'J' ∨ f = 'K' then
        ps.isEmpty || ps.all Char.isDigit
      else if f = 'H' ∨ f = 'f' then
        ps.isEmpty || decide ((splitSemi ps).length < 2) ||
          (!((splitSemi ps).getD 0 []).isEmpty &&
            ((splitSemi ps).getD 0 []).all Char.isDigit &&
            !((splitSemi ps).getD 1 []).isEmpty &&
            ((splitSemi ps).getD 1 []).all Char.isDigit)
      else true) := by
  show (let params := (ps ++ [f]).dropLast
        let cmd := (ps ++ [f]).getLastD ' '
        if cmd = 'A' ∨ cmd = 'B' ∨ cmd = 'C' ∨ cmd = 'D' ∨ cmd = 'J' ∨ cmd = 'K' then
          params.isEmpty || params.all Char.isDigit
        else if cmd = 'H' ∨ cmd = 'f' then
          params.isEmpty || decide ((splitSemi params).length < 2) ||
            (!((splitSemi params).getD 0 []).isEmpty &&
              ((splitSemi params).getD 0 []).all Char.isDigit &&
              !((splitSemi params).getD 1 []).isEmpty &&
              ((splitSemi params).getD 1 []).all Char.isDigit)
        else true) = _
  rw [List.dropLast_concat, List.getLastD_concat]

theorem parsePyInt_some_of {s : List Char} (hne : s ≠ []) (hdig : s.all Char.isDigit = true) :
    ∃ n, parsePyInt s = some n := by
  unfold parsePyInt
  rw [if_pos ⟨hne, hdig⟩]
  exact ⟨_, rfl⟩

theorem splitSemi_ne_nil : ∀ (l : List Char), splitSemi l ≠ [] := by
  intro l
  cases l with
  | nil => simp [splitSemi]
  | cons c r =>
    unfold splitSemi
    split
    · simp
    · split
      · simp
      · simp

theorem splitSemi_all_digit :
    ∀ (ps : List Char), (∀ c ∈ ps, isParamChar c = true) →
      ∀ p ∈ splitSemi ps, p.all Char.isDigit = true := by
  intro ps
  induction ps with
  | nil =>
    intro _ p hp
    simp only [splitSemi, List.mem_singleton] at hp
    rw [hp]
    rfl
  | cons c r ih =>
    intro h p hp
    have hc : isParamChar c = true := h c (List.mem_cons_self c r)
    have hr : ∀ x ∈ r, isParamChar x = true := fun x hx => h x (List.mem_cons_of_mem c hx)
    by_cases hsemi : c = ';'
    · rw [show splitSemi (c :: r) = [] :: splitSemi r by
          conv_lhs => unfold splitSemi
          rw [if_pos hsemi]] at hp
      rcases List.mem_cons.mp hp with hp | hp
      · rw [hp]; rfl
      · exact ih hr p hp
    · have hcd : c.isDigit = true := by
        unfold isParamChar at hc
        simp only [Bool.or_eq_true, decide_eq_true_eq] at hc
        rcases hc with hc | hc
        · exact hc
        · exact absurd hc hsemi
      cases hsp : splitSemi r with
      | nil => exact absurd hsp (splitSemi_ne_nil r)
      | cons q t =>
        rw [show splitSemi (c :: r) = (c :: q) :: t by
          conv_lhs => unfold splitSemi
          rw [if_neg hsemi, hsp]] at hp
        rcases List.mem_cons.mp hp with hp | hp
        · rw [hp]
          simp only [List.all_cons, hcd, Bool.true_and]
          exact ih hr q (hsp ▸ List.mem_cons_self q t)
        · exact ih hr p (hsp ▸ List.mem_cons_of_mem q hp)

theorem processColorParts_no_raise :
    ∀ (parts : List (List Char)) (st : TerminalBuffer),
      (∀ p ∈ parts, p.all Char.isDigit = true) → (processColorParts st parts).2 = false := by
  intro parts
  induction parts with
  | nil => intro st _; rfl
  | cons p rest ih =>
    intro st h
    have hp : p.all Char.isDigit = true := h p (List.mem_cons_self p rest)
    have hrest : ∀ q ∈ rest, q.all Char.isDigit = true :=
      fun q hq => h q (List.mem_cons_of_mem p hq)
    unfold processColorParts
    dsimp only
    split
    · exact ih st hrest
    · next hne =>
      obtain ⟨n, hn⟩ := parsePyInt_some_of hne hp
      rw [hn]
      dsimp only
      split
      · exact ih _ hrest
      · split
        · exact ih _ hrest
        · exact ih _ hrest

theorem parse_default_some {ps : List Char} {k : Nat}
    (hsafe : (ps.isEmpty || ps.all Char.isDigit) = true) :
    ∃ n, (if ps = [] then some k else parsePyInt ps) = some n := by
  by_cases hemp : ps = []
  · exact ⟨k, if_pos hemp⟩
  · simp only [Bool.or_eq_true, List.isEmpty_iff] at hsafe
    rcases hsafe with h | h
    · exact absurd h hemp
    · obtain ⟨n, hn⟩ := parsePyInt_some_of hemp h
      exact ⟨n, by rw [if_neg hemp]; exact hn⟩

theorem clear_screen_no_raise (st : TerminalBuffer) (ps : List Char)
    (hsafe : (ps.isEmpty || ps.all Char.isDigit) = true) :
    (st.clear_screen ps).2 = false := by
  unfold TerminalBuffer.clear_screen
  obtain ⟨n, hn⟩ := parse_default_some (k := 0) hsafe
  rw [hn]
  dsimp only
  split
  · rfl
  · split
    · rfl
    · split
      · rfl
      · rfl

theorem clear_line_no_raise (st : TerminalBuffer) (ps : List Char)
    (hsafe : (ps.isEmpty || ps.all Char.isDigit) = true) :
    (st.clear_line ps).2 = false := by
  unfold TerminalBuffer.clear_line
  obtain ⟨n, hn⟩ := parse_default_some (k := 0) hsafe
  rw [hn]
  dsimp only
  split
  · rfl
  · split
    · rfl
    · split
      · rfl
      · rfl

theorem cursor_position_no_raise (st : TerminalBuffer) (ps : List Char)
    (hsafe : (ps.isEmpty || decide ((splitSemi ps).length < 2) ||
      (!((splitSemi ps).getD 0 []).isEmpty &&
        ((splitSemi ps).getD 0 []).all Char.isDigit &&
        !((splitSemi ps).getD 1 []).isEmpty &&
        ((splitSemi ps).getD 1 []).all Char.isDigit)) = true) :
    (st.process_cursor_position ps).2 = false := by
  unfold TerminalBuffer.process_cursor_position
  by_cases hemp : ps = []
  · rw [if_pos hemp]
  · rw [if_neg hemp]
    dsimp only
    by_cases hlen : 2 ≤ (splitSemi ps).length
    · rw [if_pos hlen]
      simp only [Bool.or_eq_true, Bool.and_eq_true, Bool.not_eq_true',
        List.isEmpty_iff, List.isEmpty_eq_false, decide_eq_true_eq] at hsafe
      rcases hsafe with (hsafe | hsafe) | hsafe
      · exact absurd hsafe hemp
      · omega
      · obtain ⟨⟨⟨hne0, hdig0⟩, hne1⟩, hdig1⟩ := hsafe
        obtain ⟨r0, hr0⟩ := parsePyInt_some_of hne0 hdig0
        rw [hr0]
        dsimp only
        obtain ⟨c0, hc0⟩ := parsePyInt_some_of hne1 hdig1
        rw [hc0]
    · rw [if_neg hlen]

/-- A safe token can never set the raised flag. -/
theorem process_escape_no_raise (st : TerminalBuffer) (ps : List Char) (f : Char)
    (hps : ∀ c ∈ ps, isParamChar c = true)
    (hsafe : tokenSafe ('\x1b' :: '[' :: (ps ++ [f])) = true) :
    (st.process_escape_sequence ('\x1b' :: '[' :: (ps ++ [f]))).2 = false := by
  rw [process_escape_cmd]
  rw [tokenSafe_cmd] at hsafe
  by_cases hm : f = 'm'
  · rw [if_pos hm]
    unfold TerminalBuffer.process_color_sequence
    apply processColorParts_no_raise
    intro p hp
    by_cases hpe : ps = []
    · rw [if_pos hpe] at hp
      rw [show splitSemi ['0'] = [['0']] from rfl] at hp
      rw [List.mem_singleton.mp hp]
      rfl
    · rw [if_neg hpe] at hp
      exact splitSemi_all_digit ps hps p hp
  · rw [if_neg hm]
    by_cases hHf : f = 'H' ∨ f = 'f'
    · rw [if_pos hHf]
      have hnot : ¬(f = 'A' ∨ f = 'B' ∨ f = 'C' ∨ f = 'D' ∨ f = 'J' ∨ f = 'K') := by
        rcases hHf with rfl | rfl
        · decide
        · decide
      rw [if_neg hnot, if_pos hHf] at hsafe
      exact cursor_position_no_raise st ps hsafe
    · rw [if_neg hHf]
      by_cases hA : f = 'A'
      · rw [if_pos hA]
        rw [if_pos (Or.inl hA)] at hsafe
        obtain ⟨n, hn⟩ := parse_default_some (k := 1) hsafe
        rw [hn]
      · rw [if_neg hA]
        by_cases hB : f = 'B'
        · rw [if_pos hB]
          rw [if_pos (Or.inr (Or.inl hB))] at hsafe
          obtain ⟨n, hn⟩ := parse_default_some (k := 1) hsafe
          rw [hn]
        · rw [if_neg hB]
          by_cases hC : f = 'C'
          · rw [if_pos hC]
            rw [if_pos (Or.inr (Or.inr (Or.inl hC)))] at hsafe
            obtain ⟨n, hn⟩ := parse_default_some (k := 1) hsafe
            rw [hn]
          · rw [if_neg hC]
            by_cases hD : f = 'D'
            · rw [if_pos hD]
              rw [if_pos (Or.inr (Or.inr (Or.inr (Or.inl hD))))] at hsafe
              obtain ⟨n, hn⟩ := parse_default_some (k := 1) hsafe
              rw [hn]
            · rw [if_neg hD]
              by_cases hJ : f = 'J'
              · rw [if_pos hJ]
                rw [if_pos (Or.inr (Or.inr (Or.inr (Or.inr (Or.inl hJ)))))] at hsafe
                exact clear_screen_no_raise st ps hsafe
              · rw [if_neg hJ]
                by_cases hK : f = 'K'
                · rw [if_pos hK]
                  rw [if_pos (Or.inr (Or.inr (Or.inr (Or.inr (Or.inr hK)))))] at hsafe
                  exact clear_line_no_raise st ps hsafe
                · rw [if_neg hK]

theorem takeWhile_sat {p : Char → Bool} :
    ∀ (l : List Char) (c : Char), c ∈ l.takeWhile p → p c = true := by
  intro l
  induction l with
  | nil => intro c hc; simp [List.takeWhile] at hc
  | cons d r ih =>
    intro c hc
    by_cases hd : p d
    · simp only [List.takeWhile_cons, hd, if_true] at hc
      rcases List.mem_cons.mp hc with hc | hc
      · rw [hc]; exact hd
      · exact ih c hc
    · simp only [List.takeWhile_cons, hd, if_false] at hc
      simp at hc

/-- Every matched token has the form `ESC [ ps f` with `ps` drawn from
`[0-9;]` and `f` a letter. -/
theorem matchCSI_shape {s tok rest : List Char} (h : matchCSI s = some (tok, rest)) :
    ∃ ps f, tok = '\x1b' :: '[' :: (ps ++ [f]) ∧ (∀ c ∈ ps, isParamChar c = true) ∧
      isFinalLetter f = true := by
  unfold matchCSI at h
  split at h
  · next rest0 =>
    cases hdw : rest0.dropWhile isParamChar with
    | nil => rw [hdw] at h; simp at h
    | cons f r =>
      rw [hdw] at h
      by_cases hf : isFinalLetter f
      · simp only [hf, if_true, Option.some.injEq, Prod.mk.injEq] at h
        exact ⟨rest0.takeWhile isParamChar, f, h.1.symm,
          fun c hc => takeWhile_sat rest0 c hc, hf⟩
      · simp [hf] at h
  · simp at h

theorem writeFuel_no_raise :
    ∀ (fuel : Nat) (s : List Char) (st : TerminalBuffer),
      (∀ tok ∈ escTokensFuel fuel s, tokenSafe tok = true) →
      (writeFuel fuel st s).2 = false := by
  intro fuel
  induction fuel with
  | zero => intro s st _; rfl
  | succ fuel ih =>
    intro s st h
    cases s with
    | nil => rfl
    | cons c cs =>
      simp only [writeFuel]
      cases hm : matchCSI (c :: cs) with
      | none =>
        refine ih cs (st.writeChar c) ?_
        intro tok htok
        refine h tok ?_
        rw [show escTokensFuel (fuel + 1) (c :: cs) = escTokensFuel fuel cs by
          conv_lhs => unfold escTokensFuel
          rw [hm]]
        exact htok
      | some pr =>
        obtain ⟨tok, rest⟩ := pr
        have hmem : ∀ t ∈ tok :: escTokensFuel fuel rest, tokenSafe t = true := by
          intro t ht
          refine h t ?_
          rw [show escTokensFuel (fuel + 1) (c :: cs) = tok :: escTokensFuel fuel rest by
            conv_lhs => unfold escTokensFuel
            rw [hm]]
          exact ht
        obtain ⟨ps, f, htok, hps, hf⟩ := matchCSI_shape hm
        have hsafe : tokenSafe tok = true := hmem tok (List.mem_cons_self _ _)
        have hnr : (st.process_escape_sequence tok).2 = false := by
          rw [htok]
          exact process_escape_no_raise st ps f hps (htok ▸ hsafe)
        dsimp only
        rw [hnr]
        simp only [Bool.false_eq_true, if_false]
        exact ih rest _ fun t ht => hmem t (List.mem_cons_of_mem _ ht)

/-- C9 (amended): `write` terminates normally (raises no exception) on
every input whose escape tokens are all safe in the sense of `tokenSafe`:
finals `A B C D J K` with an empty or purely numeric parameter string, and
`H`/`f` with no parameters, one parameter, or first two `;`-fields
non-empty numeric.  (The original claim is false: a multi-parameter
sequence such as `ESC [1;2A` raises `ValueError` from `int("1;2")` — see
the counterexample theorem.) -/
theorem C9_no_raise_amended (st : TerminalBuffer) (s : List Char)
    (h : ∀ tok ∈ escTokens s, tokenSafe tok = true) : (st.write s).2 = false :=
  writeFuel_no_raise s.length s st h

/-- Witness for C9 on a fresh buffer and a stream mixing text with `J`,
`m`, `H` and `C` sequences. -/
theorem C9_no_raise_amended_witness :
    ((TerminalBuffer.init 24 80).write
      ['\x1b', '[', '2', 'J', 'o', 'k', '\x1b', '[', '3', '1', 'm',
       '\x1b', '[', 'H', '\x1b', '[', '5', 'C']).2 = false :=
  C9_no_raise_amended (TerminalBuffer.init 24 80)
    ['\x1b', '[', '2', 'J', 'o', 'k', '\x1b', '[', '3', '1', 'm',
     '\x1b', '[', 'H', '\x1b', '[', '5', 'C'] (by decide)

/-- C9 counterexample: `write "\x1b[1;2A"` raises (`int("1;2")` throws
`ValueError` in `_process_escape_sequence`), so `write` is not total. -/
theorem C9_counterexample :
    ((TerminalBuffer.init 24 80).write ['\x1b', '[', '1', ';', '2', 'A']).2 = true ∧
    ((TerminalBuffer.init 24 80).write ['\x1b', '[', ';', '5', 'H']).2 = true := by decide

/-! ### Claim C3: the scrollback ring and its capacity -/

theorem pushScrollback_length {sb : List (List Char × List Color)}
    (e : List Char × List Color) (h : sb.length ≤ 1000) :
    (pushScrollback sb e).length = min (sb.length + 1) 1000 := by
  unfold pushScrollback
  split
  · next h1000 =>
    rw [List.length_append, List.length_tail, h1000]
    simp only [List.length_singleton]
    omega
  · next hne =>
    rw [List.length_append]
    simp only [List.length_singleton]
    omega

theorem write_newlines_sb :
    ∀ (n : Nat) (st : TerminalBuffer),
      st.scroll_bottom ≤ st.cursor_row → st.scrollback.length ≤ 1000 →
      ((st.write (List.replicate n '\n')).1).scrollback.length =
        min (st.scrollback.length + n) 1000 := by
  intro n
  induction n with
  | zero =>
    intro st _ h2
    rw [show List.replicate 0 '\n' = [] from rfl, write_nil]
    show st.scrollback.length = min (st.scrollback.length + 0) 1000
    omega
  | succ n ih =>
    intro st h1 h2
    rw [List.replicate_succ, write_cons_nomatch st (matchCSI_ne_esc (by decide))]
    rw [show st.writeChar '\n' = st.newline from rfl, newline_cases, if_pos h1]
    have hlen : (({ st with cursor_col := 0 } : TerminalBuffer).scroll_up).scrollback.length =
        min (st.scrollback.length + 1) 1000 := pushScrollback_length _ h2
    have hres := ih (({ st with cursor_col := 0 } : TerminalBuffer).scroll_up) h1
      (by rw [hlen]; omega)
    rw [hres, hlen]
    omega

/-- C3 counterexample: feed 1002 (then 1003) newlines to a fresh 2×1
buffer, saving 1001 (then 1002) lines to scrollback.  The ring holds only
1000 of them both times: lines are dropped as soon as the ring reaches
1000 entries, well below the claimed limit of 1024 (under which the length
would have been 1001 and 1002). -/
theorem C3_counterexample :
    (((TerminalBuffer.init 2 1).write (List.replicate 1002 '\n')).1).scrollback.length = 1000 ∧
    (((TerminalBuffer.init 2 1).write (List.replicate 1003 '\n')).1).scrollback.length = 1000 ∧
    (1000 : Nat) < 1024 := by
  have step : ∀ m : Nat, 1 ≤ m →
      (((TerminalBuffer.init 2 1).write (List.replicate m '\n')).1).scrollback.length =
        min (m - 1) 1000 := by
    intro m hm
    obtain ⟨n, rfl⟩ : ∃ n, m = n + 1 := ⟨m - 1, by omega⟩
    rw [List.replicate_succ, write_cons_nomatch _ (matchCSI_ne_esc (by decide))]
    rw [show (TerminalBuffer.init 2 1).writeChar '\n' = (TerminalBuffer.init 2 1).newline
      from rfl, newline_cases, if_neg (by decide)]
    rw [write_newlines_sb n _ (by decide) (by decide)]
    show min (0 + n) 1000 = min (n + 1 - 1) 1000
    omega
  refine ⟨?_, ?_, by omega⟩
  · rw [step 1002 (by omega)]
    omega
  · rw [step 1003 (by omega)]
    omega

theorem processColorParts_scrollback :
    ∀ (parts : List (List Char)) (st : TerminalBuffer),
      (processColorParts st parts).1.scrollback = st.scrollback := by
  intro parts
  induction parts with
  | nil => intro st; rfl
  | cons p rest ih =>
    intro st
    unfold processColorParts
    dsimp only
    split
    · exact ih st
    · split
      · rfl
      · split
        · exact ih _
        · split
          · exact ih _
          · exact ih _

theorem cursor_position_scrollback (st : TerminalBuffer) (ps : List Char) :
    (st.process_cursor_position ps).1.scrollback = st.scrollback := by
  unfold TerminalBuffer.process_cursor_position
  dsimp only
  split
  · rfl
  · split
    · split
      · rfl
      · split
        · rfl
        · rfl
    · rfl

theorem clear_screen_scrollback (st : TerminalBuffer) (ps : List Char) :
    (st.clear_screen ps).1.scrollback = st.scrollback := by
  unfold TerminalBuffer.clear_screen
  split
  · rfl
  · split
    · rfl
    · split
      · rfl
      · split
        · rfl
        · rfl

theorem clear_line_scrollback (st : TerminalBuffer) (ps : List Char) :
    (st.clear_line ps).1.scrollback = st.scrollback := by
  unfold TerminalBuffer.clear_line
  split
  · rfl
  · split
    · rfl
    · split
      · rfl
      · split
        · rfl
        · rfl

/-- Escape-sequence processing never touches the scrollback ring. -/
theorem process_escape_scrollback (st : TerminalBuffer) (seq : List Char) :
    (st.process_escape_sequence seq).1.scrollback = st.scrollback := by
  unfold TerminalBuffer.process_escape_sequence
  split
  · dsimp only
    split
    · exact processColorParts_scrollback _ st
    · split
      · exact cursor_position_scrollback st _
      · split
        · split
          · rfl
          · rfl
        · split
          · split
            · rfl
            · rfl
          · split
            · split
              · rfl
              · rfl
            · split
              · split
                · rfl
                · rfl
              · split
                · exact clear_screen_scrollback st _
                · split
                  · exact clear_line_scrollback st _
                  · rfl
  · rfl

theorem pushScrollback_le {sb : List (List Char × List Color)}
    (e : List Char × List Color) (h : sb.length ≤ 1000) :
    (pushScrollback sb e).length ≤ 1000 := by
  rw [pushScrollback_length e h]
  omega

theorem newline_sb_le {st : TerminalBuffer} (h : st.scrollback.length ≤ 1000) :
    st.newline.scrollback.length ≤ 1000 := by
  rw [newline_cases]
  split
  · exact pushScrollback_le _ h
  · exact h

theorem writeChar_sb_le {st : TerminalBuffer} (c : Char)
    (h : st.scrollback.length ≤ 1000) : (st.writeChar c).scrollback.length ≤ 1000 := by
  by_cases hc1 : c = '\n'
  · rw [show st.writeChar c = st.newline by simp [TerminalBuffer.writeChar, hc1]]
    exact newline_sb_le h
  by_cases hc2 : c = '\r'
  · rw [show st.writeChar c = { st with cursor_col := 0 } by
      simp [TerminalBuffer.writeChar, hc1, hc2]]
    exact h
  by_cases hc3 : c = '\x08'
  · rw [show st.writeChar c =
        (if 0 < st.cursor_col then { st with cursor_col := st.cursor_col - 1 } else st) by
      simp [TerminalBuffer.writeChar, hc1, hc2, hc3]]
    split
    · exact h
    · exact h
  by_cases hc4 : c = '\t'
  · rw [show st.writeChar c =
        (if st.cols ≤ (st.cursor_col / 8 + 1) * 8 then
          ({ st with cursor_col := (st.cursor_col / 8 + 1) * 8 } : TerminalBuffer).newline
        else { st with cursor_col := (st.cursor_col / 8 + 1) * 8 }) by
      simp [TerminalBuffer.writeChar, hc1, hc2, hc3, hc4]]
    split
    · exact newline_sb_le h
    · exact h
  by_cases hc5 : 32 ≤ c.toNat
  · rw [show st.writeChar c =
        (let s1 := if st.cols ≤ st.cursor_col then st.newline else st
         { s1 with
           buffer := setCell s1.buffer s1.cursor_row s1.cursor_col c
           colors := setCell s1.colors s1.cursor_row s1.cursor_col s1.current_color
           cursor_col := s1.cursor_col + 1 }) by
      simp [TerminalBuffer.writeChar, hc1, hc2, hc3, hc4, hc5]]
    show (if st.cols ≤ st.cursor_col then st.newline else st).scrollback.length ≤ 1000
    split
    · exact newline_sb_le h
    · exact h
  · rw [show st.writeChar c = st by simp [TerminalBuffer.writeChar, hc1, hc2, hc3, hc4, hc5]]
    exact h

theorem writeFuel_sb_le :
    ∀ (fuel : Nat) (s : List Char) (st : TerminalBuffer),
      st.scrollback.length ≤ 1000 → ((writeFuel fuel st s).1).scrollback.length ≤ 1000 := by
  intro fuel
  induction fuel with
  | zero => intro s st h; exact h
  | succ fuel ih =>
    intro s st h
    cases s with
    | nil => exact h
    | cons c cs =>
      simp only [writeFuel]
      cases hm : matchCSI (c :: cs) with
      | none => exact ih cs _ (writeChar_sb_le c h)
      | some pr =>
        obtain ⟨tok, rest⟩ := pr
        dsimp only
        have hpe : ((st.process_escape_sequence tok).1).scrollback.length ≤ 1000 := by
          rw [process_escape_scrollback]
          exact h
        split
        · exact hpe
        · exact ih rest _ hpe

theorem resize_scrollback (st : TerminalBuffer) (r c : Nat) :
    (st.resize r c).scrollback = st.scrollback := by
  unfold TerminalBuffer.resize
  split
  · rfl
  · rfl

theorem applyOps_sb_le :
    ∀ (ops : List TermOp) (st : TerminalBuffer), st.scrollback.length ≤ 1000 →
      (applyOps st ops).scrollback.length ≤ 1000 := by
  intro ops
  induction ops with
  | nil => intro st h; exact h
  | cons op rest ih =>
    intro st h
    show (applyOps (applyOp st op) rest).scrollback.length ≤ 1000
    refine ih _ ?_
    cases op with
    | write d => exact writeFuel_sb_le d.length d st h
    | resize r c =>
      show (st.resize r c).scrollback.length ≤ 1000
      rw [resize_scrollback]
      exact h

/-- C3 (amended): after any sequence of operations on a fresh default
buffer the scrollback ring holds at most 1000 saved lines — the actual
capacity is `deque(maxlen=1000)`, not the 1024 stated in the spec; on
overflow at 1000 entries the oldest saved line is dropped. -/
theorem C3_scrollback_bound (ops : List TermOp) :
    (applyOps (TerminalBuffer.init 24 80) ops).scrollback.length ≤ 1000 :=
  applyOps_sb_le ops (TerminalBuffer.init 24 80) (by decide)

/-! ### Claim C1: splitting a write inside an escape sequence -/

set_option maxRecDepth 100000 in
/-- C1: `write` keeps no partial-escape state between calls, so feeding
`"\x1b[m"` as `"\x1b"` then `"[m"` differs from feeding it at once: the
bulk write consumes the SGR sequence and leaves the grid blank, while the
split write discards the lone ESC (a control byte below 0x20) and then
prints `[` and `m` as ordinary characters into the grid. -/
theorem C1_split_vs_bulk :
    ((((TerminalBuffer.init 24 80).write ['\x1b']).1.write ['[', 'm']).1.buffer ≠
      (((TerminalBuffer.init 24 80).write ['\x1b', '[', 'm']).1).buffer) ∧
    (((((TerminalBuffer.init 24 80).write ['\x1b']).1.write ['[', 'm']).1.buffer.headD
      []).headD ' ' = '[') ∧
    (((((TerminalBuffer.init 24 80).write ['\x1b', '[', 'm']).1).buffer.headD []).headD ' '
      = ' ') := by decide

/-! ### Claim C2: `get_display_lines` -/

theorem range_filterMap_guard {α : Type} (n m : Nat) (f : Nat → α) (hnm : n ≤ m) :
    (List.range n).filterMap (fun i => if i < m then some (f i) else none) =
      (List.range n).map f := by
  induction n with
  | zero => rfl
  | succ n ih =>
    rw [List.range_succ, List.filterMap_append, List.map_append, ih (by omega)]
    simp only [List.filterMap_cons, List.filterMap_nil, List.map_cons, List.map_nil]
    rw [if_pos (by omega)]

/-- C2 (amended): for a state whose grids have `rows` rows and whose
`scrollback_offset` is at most the scrollback length (the data-model
invariant), `get_display_lines` returns the last `scrollback_offset` ring
entries (oldest of the slice first) followed by the top
`rows - scrollback_offset` buffer rows; the total is
`max rows scrollback_offset` — exactly `rows` only when
`scrollback_offset ≤ rows`.  (The source slices the ring by
`min(offset, len(scrollback))`, not by `min(offset, rows)`, and never
truncates the result to `rows` lines.) -/
theorem C2_display_lines_amended (st : TerminalBuffer)
    (hb : st.buffer.length = st.rows) (hc : st.colors.length = st.rows)
    (hoff : st.scrollback_offset ≤ st.scrollback.length) :
    st.get_display_lines =
      st.scrollback.drop (st.scrollback.length - st.scrollback_offset) ++
        (List.range (st.rows - st.scrollback_offset)).map
          (fun i => (st.buffer.getD i [], st.colors.getD i [])) ∧
    st.get_display_lines.length = max st.rows st.scrollback_offset := by
  have hring : (st.scrollback.drop (st.scrollback.length - st.scrollback_offset)).length =
      st.scrollback_offset := by
    rw [List.length_drop]
    omega
  have heq : st.get_display_lines =
      st.scrollback.drop (st.scrollback.length - st.scrollback_offset) ++
        (List.range (st.rows - st.scrollback_offset)).map
          (fun i => (st.buffer.getD i [], st.colors.getD i [])) := by
    unfold TerminalBuffer.get_display_lines
    by_cases h0 : 0 < st.scrollback_offset
    · rw [if_pos h0]
      dsimp only
      rw [hring]
      congr 1
      rw [← hb]
      exact range_filterMap_guard _ _ _ (by omega)
    · rw [if_neg h0]
      have hz : st.scrollback_offset = 0 := by omega
      rw [hz]
      simp [List.drop_length]
  refine ⟨heq, ?_⟩
  rw [heq, List.length_append, hring, List.length_map, List.length_range]
  omega

/-- Witness for C2: one ring line above the top buffer row, 2 lines. -/
theorem C2_display_lines_amended_witness :
    dispStateA.get_display_lines = [(['a'], [defaultColor]), (['x'], [defaultColor])] ∧
    dispStateA.get_display_lines.length = 2 := by
  have h := C2_display_lines_amended dispStateA (by decide) (by decide) (by decide)
  refine ⟨?_, ?_⟩
  · rw [h.1]; decide
  · rw [h.2]; decide

/-- C2 counterexample: on `dispStateB` (which satisfies the documented
invariants) `get_display_lines` returns 3 lines, not `rows = 2`: the code
slices the ring by `min(offset, len(scrollback))` and never truncates to
`rows`. -/
theorem C2_counterexample :
    dispStateB.scrollback_offset ≤ dispStateB.scrollback.length ∧
    dispStateB.get_display_lines.length = 3 ∧
    ¬ dispStateB.get_display_lines.length = dispStateB.rows := by decide

/-! ### Claims C4, C5, C10: the PTY service (`pty_service.py`) -/

/-- C5 counterexample: `resize_terminal(2000, 80)` applies `(2000, 80)`
unchanged — not the clamped `(1000, 80)`; `resize_terminal(0, 80)` applies
0 rows rather than the bound 1; a negative argument raises `struct.error`
instead of being clamped. -/
theorem C5_counterexample :
    PTYSession.resize_terminal 2000 80 = some (2000, 80) ∧
    ¬ PTYSession.resize_terminal 2000 80 = some (1000, 80) ∧
    PTYSession.resize_terminal 0 80 = some (0, 80) ∧
    ¬ PTYSession.resize_terminal 0 80 = some (1, 80) ∧
    PTYSession.resize_terminal (-1) 80 = none := by decide

/-- C5 (amended): the session applies the resize arguments exactly as
given whenever both fit in an unsigned 16-bit field, with no clamping to
`[1, 1000]`; outside `[0, 65535]` the `struct.pack` raises. -/
theorem C5_no_clamp (rows cols : Int) :
    (0 ≤ rows → rows < 65536 → 0 ≤ cols → cols < 65536 →
      PTYSession.resize_terminal rows cols = some (rows.toNat, cols.toNat)) ∧
    ((rows < 0 ∨ 65536 ≤ rows ∨ cols < 0 ∨ 65536 ≤ cols) →
      PTYSession.resize_terminal rows cols = none) := by
  constructor
  · intro h1 h2 h3 h4
    unfold PTYSession.resize_terminal packUShort
    rw [if_pos ⟨h1, h2⟩, if_pos ⟨h3, h4⟩]
  · intro h
    unfold PTYSession.resize_terminal
    have hnone : packUShort rows = none ∨ packUShort cols = none := by
      unfold packUShort
      rcases h with h | h | h | h
      · left; rw [if_neg (by omega)]
      · left; rw [if_neg (by omega)]
      · right; rw [if_neg (by omega)]
      · right; rw [if_neg (by omega)]
    rcases hnone with hn | hn
    · rw [hn]
    · rw [hn]
      cases packUShort rows
      · rfl
      · rfl

/-- Witness for C5: 10×40 is applied verbatim; a negative row count
raises. -/
theorem C5_no_clamp_witness :
    PTYSession.resize_terminal 10 40 = some (10, 40) ∧
    PTYSession.resize_terminal (-5) 7 = none := by
  constructor
  · exact (C5_no_clamp 10 40).1 (by decide) (by decide) (by decide) (by decide)
  · exact (C5_no_clamp (-5) 7).2 (Or.inl (by decide))

theorem closeConn_not_mem :
    ∀ (msgs : List ClientMsg) (session : Option String),
      SrvAction.closeConn ∉ handleMessages session msgs := by
  intro msgs
  induction msgs with
  | nil => intro session h; exact absurd h (List.not_mem_nil _)
  | cons m rest ih =>
    intro session h
    rw [show handleMessages session (m :: rest) =
      (handleStep session m).2 ++ handleMessages (handleStep session m).1 rest from rfl] at h
    rcases List.mem_append.mp h with h | h
    · cases m with
      | connectMsg sid => simp [handleStep] at h
      | resizeMsg r c =>
        cases session with
        | none => simp [handleStep] at h
        | some sid => simp [handleStep] at h
      | inputMsg d =>
        cases session with
        | none => simp [handleStep] at h
        | some sid => simp [handleStep] at h
      | otherJson => simp [handleStep] at h
      | rawData d =>
        cases session with
        | none => simp [handleStep] at h
        | some sid => simp [handleStep] at h
    · exact ih _ h

/-- C4 (amended): a non-`connect` message received before any `connect` is
silently ignored — no action is taken and, in particular, the connection
is not closed; the handler keeps reading, and a later `connect` attaches
normally.  (The handler loop contains no close-on-bad-first-message path
at all; the socket is closed only when the peer disconnects.) -/
theorem C4_ignore_amended (m : ClientMsg) (rest : List ClientMsg)
    (hnc : ∀ sid, m ≠ ClientMsg.connectMsg sid) :
    handleMessages none (m :: rest) = handleMessages none rest ∧
    SrvAction.closeConn ∉ handleMessages none (m :: rest) := by
  refine ⟨?_, closeConn_not_mem (m :: rest) none⟩
  cases m with
  | connectMsg sid => exact absurd rfl (hnc sid)
  | resizeMsg r c => rfl
  | inputMsg d => rfl
  | otherJson => rfl
  | rawData d => rfl

/-- Witness for C4: a pre-connect resize is dropped; the later connect and
input still take effect. -/
theorem C4_ignore_amended_witness :
    handleMessages none
        [ClientMsg.resizeMsg 3 4, ClientMsg.connectMsg (some "d"), ClientMsg.inputMsg "q"] =
      handleMessages none [ClientMsg.connectMsg (some "d"), ClientMsg.inputMsg "q"] ∧
    SrvAction.closeConn ∉ handleMessages none
      [ClientMsg.resizeMsg 3 4, ClientMsg.connectMsg (some "d"), ClientMsg.inputMsg "q"] :=
  C4_ignore_amended (ClientMsg.resizeMsg 3 4)
    [ClientMsg.connectMsg (some "d"), ClientMsg.inputMsg "q"]
    (fun sid h => ClientMsg.noConfusion h)

/-- C4 counterexample: the first framed message is a `Resize` with no
session attached; the handler does not close — it ignores the message and
goes on to serve the following `Connect` and `Input` normally, and no
close action ever appears in the trace. -/
theorem C4_counterexample :
    handleMessages none
        [ClientMsg.resizeMsg 5 5, ClientMsg.connectMsg (some "d"), ClientMsg.inputMsg "x"] =
      [SrvAction.attachClient "d", SrvAction.sendConnected "d",
       SrvAction.writePty "d" "x"] ∧
    ¬ SrvAction.closeConn ∈ handleMessages none
        [ClientMsg.resizeMsg 5 5, ClientMsg.connectMsg (some "d"),
         ClientMsg.inputMsg "x"] := by decide

/-- C10 counterexample: with a single healthy subscriber the broadcast
trace is `acquire, send, release` — the send happens INSIDE the critical
section, refuting "the mutex is never held while a send is in progress". -/
theorem C10_counterexample :
    broadcastTrace [(0, true)] = [BEv.acquire, BEv.send 0, BEv.release] ∧
    sendsWhileHeld false (broadcastTrace [(0, true)]) = true := by decide

theorem allSendsHeld_body :
    ∀ (clients : List (Nat × Bool)),
      allSendsHeld true
        ((clients.map fun p =>
          if p.2 then [BEv.send p.1] else [BEv.send p.1, BEv.removeClose p.1]).flatten ++
          [BEv.release]) = true := by
  intro clients
  induction clients with
  | nil => rfl
  | cons p rest ih =>
    simp only [List.map_cons, List.flatten_cons, List.append_assoc]
    by_cases hp : p.2
    · rw [if_pos hp]
      simpa [allSendsHeld] using ih
    · rw [if_neg hp]
      simpa [allSendsHeld] using ih

/-- C10 (amended): the subscriber mutex IS held across the whole broadcast
— every send attempt, and the removal of broken subscribers, happens
inside the single `with self.lock:` critical section; there is no
snapshot-then-send-outside-the-lock pattern in `_read_from_pty`. -/
theorem C10_lock_held_amended (clients : List (Nat × Bool)) :
    allSendsHeld false (broadcastTrace clients) = true := by
  unfold broadcastTrace
  show allSendsHeld true _ = true
  exact allSendsHeld_body clients
